import Mathlib

/-!
Shallow embedding of the `backofmyhouse` recipe-management backend,
covering the backup import/export subsystem (`app/services/backup_service.py`),
the schema.org mapper (`app/services/schema_mapper.py`), the AI retry loop
(`app/services/ai/base.py`) and the auth service (`app/services/auth.py`).
-/

namespace SchemaMapper

/-- `Instruction` pydantic schema (`app/schemas/recipe.py`). -/
structure Instruction where
  step_number : Nat
  text : String
deriving DecidableEq, Repr

/-- Model of Python `int()` applied to a numeric value: truncation toward zero. -/
def pyInt (q : ℚ) : Int := if 0 ≤ q then ⌊q⌋ else ⌈q⌉

/-- The dynamic `recipeYield` value passed to `_parse_servings`:
`None`, a number (`int`/`float`, modelled as a rational), a string,
or a value of any other type. -/
inductive YieldValue where
  | null
  | num (q : ℚ)
  | str (s : String)
  | other
deriving DecidableEq

/-- The first maximal run of digit characters in a character list, if any:
model of `re.search(r"(\d+)", s)`. -/
def firstDigitRun : List Char → Option (List Char)
  | [] => none
  | c :: rest =>
    if c.isDigit then some (c :: rest.takeWhile Char.isDigit)
    else firstDigitRun rest

/-- Numeric value of a digit string, for `int(match.group(1))`. -/
def digitsVal (cs : List Char) : Nat :=
  cs.foldl (fun a c => 10 * a + (c.toNat - 48)) 0

/-- `_parse_servings` (`app/services/schema_mapper.py` lines 118-142):
`None` for `None`; `int(x)` for numbers; the first digit run for strings
containing one; `None` otherwise. -/
def parse_servings : YieldValue → Option Int
  | .null => none
  | .num q => some (pyInt q)
  | .str s =>
    match firstDigitRun s.data with
    | some run => some (digitsVal run)
    | none => none
  | .other => none

/-- An element of a `HowToSection`'s `itemListElement` list: either a dict
with `@type == "HowToStep"` (whose `text` field is modelled with `""` for a
missing field), or anything else, which the code ignores. -/
inductive SectionElem where
  | step (text : String)
  | otherElem
deriving DecidableEq

/-- An item of a `recipeInstructions` list: a plain string, a dict with
`@type == "HowToStep"`, a dict with `@type == "HowToSection"`, any other
dict (whose `text` field is modelled with `""` for a missing field), or a
non-string non-dict value, which the loop ignores. -/
inductive InstrItem where
  | str (s : String)
  | howToStep (text : String)
  | howToSection (elems : List SectionElem)
  | unknownDict (text : String)
  | otherItem
deriving DecidableEq

/-- The dynamic `recipeInstructions` value: a string, a list, `None` (or any
other falsy value), or a truthy non-list non-string value. -/
inductive InstructionsValue where
  | str (s : String)
  | list (items : List InstrItem)
  | null
  | otherVal
deriving DecidableEq

/-- The inner loop of `_parse_instructions` over a `HowToSection`'s
`itemListElement`, threading the running step counter; returns the
instructions emitted and the next counter value. -/
def sectionSteps : List SectionElem → Nat → List Instruction × Nat
  | [], n => ([], n)
  | .step t :: rest, n =>
    if t = "" then sectionSteps rest n
    else
      let (l, m) := sectionSteps rest (n + 1)
      (⟨n, t⟩ :: l, m)
  | .otherElem :: rest, n => sectionSteps rest n

/-- The main loop of `_parse_instructions` over the items of a list input,
threading the running step counter. -/
def parseItems : List InstrItem → Nat → List Instruction
  | [], _ => []
  | .str s :: rest, n => ⟨n, s⟩ :: parseItems rest (n + 1)
  | .howToStep t :: rest, n =>
    if t = "" then parseItems rest n else ⟨n, t⟩ :: parseItems rest (n + 1)
  | .howToSection elems :: rest, n =>
    let (steps, m) := sectionSteps elems n
    steps ++ parseItems rest m
  | .unknownDict t :: rest, n =>
    if t = "" then parseItems rest n else ⟨n, t⟩ :: parseItems rest (n + 1)
  | .otherItem :: rest, n => parseItems rest n

/-- `_parse_instructions` (`app/services/schema_mapper.py` lines 201-263).
The leading `if not raw_instructions` guard makes the empty string and the
empty list (both falsy in Python) return `[]`. -/
def parse_instructions : InstructionsValue → List Instruction
  | .str s => if s = "" then [] else [⟨1, s⟩]
  | .list items => if items = [] then [] else parseItems items 1
  | .null => []
  | .otherVal => []

end SchemaMapper

namespace SchemaMapper

theorem firstDigitRun_append_of_no_digit (pre l : List Char)
    (h : ∀ c ∈ pre, ¬ c.isDigit) :
    firstDigitRun (pre ++ l) = firstDigitRun l := by
  induction pre with
  | nil => rfl
  | cons c rest ih =>
    have hc : ¬ c.isDigit := h c (List.mem_cons_self c rest)
    rw [List.cons_append, firstDigitRun, if_neg hc]
    exact ih fun x hx => h x (List.mem_cons_of_mem c hx)

theorem firstDigitRun_none (l : List Char) (h : ∀ c ∈ l, ¬ c.isDigit) :
    firstDigitRun l = none := by
  induction l with
  | nil => rfl
  | cons c rest ih =>
    rw [firstDigitRun, if_neg (h c (List.mem_cons_self c rest))]
    exact ih fun x hx => h x (List.mem_cons_of_mem c hx)

theorem takeWhile_append_of_all (l1 l2 : List Char)
    (h : ∀ c ∈ l1, c.isDigit) :
    (l1 ++ l2).takeWhile Char.isDigit = l1 ++ l2.takeWhile Char.isDigit := by
  induction l1 with
  | nil => rfl
  | cons c rest ih =>
    rw [List.cons_append, List.takeWhile_cons_of_pos (h c (List.mem_cons_self c rest)),
      ih fun x hx => h x (List.mem_cons_of_mem c hx), List.cons_append]

theorem takeWhile_eq_nil_of_head (l : List Char)
    (h : ∀ c, l.head? = some c → ¬ c.isDigit) :
    l.takeWhile Char.isDigit = [] := by
  cases l with
  | nil => rfl
  | cons c rest => exact List.takeWhile_cons_of_neg (h c rfl)

/-- C6: `_parse_servings` returns `None` for `None`; the number truncated
toward zero for a numeric input (`|result| ≤ |input| < |result| + 1`, sign
preserved); the first run of digits anywhere in a string input (`"12
servings"` gives 12, `"8-10"` gives 8); and `None` for a digit-free string
or a value of any other type. -/
theorem parse_servings_spec :
    (parse_servings .null = none) ∧
    (∀ q : ℚ, parse_servings (.num q) = some (pyInt q) ∧
      |(pyInt q : ℚ)| ≤ |q| ∧ |q| < |(pyInt q : ℚ)| + 1 ∧
      (0 ≤ q → 0 ≤ pyInt q) ∧ (q ≤ 0 → pyInt q ≤ 0)) ∧
    (parse_servings (.str "12 servings") = some 12) ∧
    (parse_servings (.str "8-10") = some 8) ∧
    (∀ pre run post : List Char, (∀ c ∈ pre, ¬ c.isDigit) → run ≠ [] →
      (∀ c ∈ run, c.isDigit) → (∀ c, post.head? = some c → ¬ c.isDigit) →
      parse_servings (.str ⟨pre ++ run ++ post⟩) = some ((digitsVal run : Nat) : Int)) ∧
    (∀ s : String, (∀ c ∈ s.data, ¬ c.isDigit) → parse_servings (.str s) = none) ∧
    (parse_servings .other = none) := by
  refine ⟨rfl, ?_, by decide, by decide, ?_, ?_, rfl⟩
  · intro q
    refine ⟨rfl, ?_, ?_, ?_, ?_⟩
    · by_cases hq : 0 ≤ q
      · rw [pyInt, if_pos hq, abs_of_nonneg hq,
          abs_of_nonneg (show ((⌊q⌋ : ℤ) : ℚ) ≥ 0 by
            exact_mod_cast Int.floor_nonneg.mpr hq)]
        exact Int.floor_le q
      · push_neg at hq
        have hceil : (⌈q⌉ : ℤ) ≤ 0 := Int.ceil_le.mpr (by exact_mod_cast hq.le)
        rw [pyInt, if_neg (not_le.mpr hq), abs_of_neg hq,
          abs_of_nonpos (show ((⌈q⌉ : ℤ) : ℚ) ≤ 0 by exact_mod_cast hceil)]
        have hle := Int.le_ceil q
        linarith
    · by_cases hq : 0 ≤ q
      · rw [pyInt, if_pos hq, abs_of_nonneg hq,
          abs_of_nonneg (show ((⌊q⌋ : ℤ) : ℚ) ≥ 0 by
            exact_mod_cast Int.floor_nonneg.mpr hq)]
        exact Int.lt_floor_add_one q
      · push_neg at hq
        have hceil : (⌈q⌉ : ℤ) ≤ 0 := Int.ceil_le.mpr (by exact_mod_cast hq.le)
        rw [pyInt, if_neg (not_le.mpr hq), abs_of_neg hq,
          abs_of_nonpos (show ((⌈q⌉ : ℤ) : ℚ) ≤ 0 by exact_mod_cast hceil)]
        have hc := Int.ceil_lt_add_one q
        linarith
    · intro hq
      rw [pyInt, if_pos hq]
      exact Int.floor_nonneg.mpr hq
    · intro hq
      by_cases hq0 : 0 ≤ q
      · have hz : q = 0 := le_antisymm hq hq0
        rw [pyInt, if_pos hq0, hz]
        simp
      · rw [pyInt, if_neg hq0]
        exact Int.ceil_le.mpr (by exact_mod_cast hq)
  · intro pre run post hpre hne hrun hpost
    obtain ⟨d, rest, rfl⟩ : ∃ d rest, run = d :: rest := by
      cases run with
      | nil => exact absurd rfl hne
      | cons d rest => exact ⟨d, rest, rfl⟩
    have hl : (String.mk (pre ++ (d :: rest) ++ post)).data =
        pre ++ ((d :: rest) ++ post) := by
      simp
    rw [parse_servings, hl,
      firstDigitRun_append_of_no_digit pre ((d :: rest) ++ post) hpre]
    rw [List.cons_append, firstDigitRun,
      if_pos (hrun d (List.mem_cons_self d rest)),
      takeWhile_append_of_all rest post
        (fun x hx => hrun x (List.mem_cons_of_mem d hx)),
      takeWhile_eq_nil_of_head post hpost, List.append_nil]
  · intro s hs
    rw [parse_servings, firstDigitRun_none s.data hs]

/-- Witness for C6: the hypothesis-bearing clauses at concrete inputs — the
digit run `['4','2']` inside `"a42x"` is extracted, and a digit-free string
yields `none`. -/
theorem parse_servings_spec_witness :
    parse_servings (.str ⟨['a'] ++ ['4', '2'] ++ ['x']⟩) =
      some ((digitsVal ['4', '2'] : Nat) : Int) ∧
    parse_servings (.str "servings") = none ∧
    ((0 : ℚ) ≤ (7 : ℚ) / 2 → 0 ≤ pyInt ((7 : ℚ) / 2)) := by
  refine ⟨?_, ?_, ?_⟩
  · exact parse_servings_spec.2.2.2.2.1 ['a'] ['4', '2'] ['x']
      (by decide) (by decide) (by decide) (by decide)
  · exact parse_servings_spec.2.2.2.2.2.1 "servings" (by decide)
  · exact (parse_servings_spec.2.1 ((7 : ℚ) / 2)).2.2.2.1

/-- Whether every plain-string item of a `recipeInstructions` list is a
non-empty string (the guard `_parse_instructions` does NOT apply to them). -/
def stringItemsOk : InstructionsValue → Bool
  | .list items =>
    items.all fun it =>
      match it with
      | .str s => !(s == "")
      | _ => true
  | _ => true

theorem sectionSteps_step_ne (t : String) (rest : List SectionElem) (n : Nat)
    (ht : ¬ t = "") :
    sectionSteps (.step t :: rest) n =
      (⟨n, t⟩ :: (sectionSteps rest (n + 1)).1, (sectionSteps rest (n + 1)).2) := by
  obtain ⟨l, m, hx⟩ : ∃ l m, sectionSteps rest (n + 1) = (l, m) := ⟨_, _, rfl⟩
  rw [sectionSteps, if_neg ht, hx]

theorem sectionSteps_spec (elems : List SectionElem) : ∀ n : Nat,
    (sectionSteps elems n).1.map (fun i => i.step_number) =
      List.range' n (sectionSteps elems n).1.length ∧
    (sectionSteps elems n).2 = n + (sectionSteps elems n).1.length ∧
    (∀ i ∈ (sectionSteps elems n).1, i.text ≠ "") := by
  induction elems with
  | nil => intro n; refine ⟨rfl, rfl, by simp [sectionSteps]⟩
  | cons e rest ih =>
    intro n
    cases e with
    | step t =>
      by_cases ht : t = ""
      · rw [show sectionSteps (.step t :: rest) n = sectionSteps rest n by
          rw [sectionSteps, if_pos ht]]
        exact ih n
      · rw [sectionSteps_step_ne t rest n ht]
        obtain ⟨ih1, ih2, ih3⟩ := ih (n + 1)
        refine ⟨?_, ?_, ?_⟩
        · simp only [List.map_cons, List.length_cons, ih1, List.range'_succ]
        · simp only [List.length_cons, ih2]
          omega
        · intro i hi
          rcases List.mem_cons.mp hi with rfl | hi'
          · exact ht
          · exact ih3 i hi'
    | otherElem =>
      rw [show sectionSteps (.otherElem :: rest) n = sectionSteps rest n from rfl]
      exact ih n

theorem parseItems_section (elems : List SectionElem) (rest : List InstrItem)
    (n : Nat) :
    parseItems (.howToSection elems :: rest) n =
      (sectionSteps elems n).1 ++ parseItems rest (sectionSteps elems n).2 := by
  obtain ⟨l, m, hx⟩ : ∃ l m, sectionSteps elems n = (l, m) := ⟨_, _, rfl⟩
  rw [parseItems, hx]

theorem parseItems_spec (items : List InstrItem) : ∀ n : Nat,
    (parseItems items n).map (fun i => i.step_number) =
      List.range' n (parseItems items n).length ∧
    ((∀ s, InstrItem.str s ∈ items → s ≠ "") →
      ∀ i ∈ parseItems items n, i.text ≠ "") := by
  induction items with
  | nil => intro n; exact ⟨rfl, by simp [parseItems]⟩
  | cons it rest ih =>
    intro n
    cases it with
    | str s =>
      rw [show parseItems (.str s :: rest) n =
        ⟨n, s⟩ :: parseItems rest (n + 1) from rfl]
      obtain ⟨ih1, ih2⟩ := ih (n + 1)
      refine ⟨?_, ?_⟩
      · simp only [List.map_cons, List.length_cons, ih1, List.range'_succ]
      · intro hs i hi
        rcases List.mem_cons.mp hi with rfl | hi'
        · exact hs s (List.mem_cons_self _ _)
        · exact ih2 (fun x hx => hs x (List.mem_cons_of_mem _ hx)) i hi'
    | howToStep t =>
      by_cases ht : t = ""
      · rw [show parseItems (.howToStep t :: rest) n = parseItems rest n by
          rw [parseItems, if_pos ht]]
        obtain ⟨ih1, ih2⟩ := ih n
        exact ⟨ih1, fun hs => ih2 fun x hx => hs x (List.mem_cons_of_mem _ hx)⟩
      · rw [show parseItems (.howToStep t :: rest) n =
          ⟨n, t⟩ :: parseItems rest (n + 1) by rw [parseItems, if_neg ht]]
        obtain ⟨ih1, ih2⟩ := ih (n + 1)
        refine ⟨?_, ?_⟩
        · simp only [List.map_cons, List.length_cons, ih1, List.range'_succ]
        · intro hs i hi
          rcases List.mem_cons.mp hi with rfl | hi'
          · exact ht
          · exact ih2 (fun x hx => hs x (List.mem_cons_of_mem _ hx)) i hi'
    | howToSection elems =>
      rw [parseItems_section elems rest n]
      obtain ⟨s1, s2, s3⟩ := sectionSteps_spec elems n
      obtain ⟨ih1, ih2⟩ := ih (sectionSteps elems n).2
      refine ⟨?_, ?_⟩
      · rw [List.map_append, s1, ih1, List.length_append, s2]
        have h := List.range'_append n (sectionSteps elems n).1.length
          (parseItems rest (n + (sectionSteps elems n).1.length)).length 1
        simp only [one_mul] at h
        rw [h]
        congr 1
        omega
      · intro hs i hi
        rcases List.mem_append.mp hi with hi' | hi'
        · exact s3 i hi'
        · exact ih2 (fun x hx => hs x (List.mem_cons_of_mem _ hx)) i hi'
    | unknownDict t =>
      by_cases ht : t = ""
      · rw [show parseItems (.unknownDict t :: rest) n = parseItems rest n by
          rw [parseItems, if_pos ht]]
        obtain ⟨ih1, ih2⟩ := ih n
        exact ⟨ih1, fun hs => ih2 fun x hx => hs x (List.mem_cons_of_mem _ hx)⟩
      · rw [show parseItems (.unknownDict t :: rest) n =
          ⟨n, t⟩ :: parseItems rest (n + 1) by rw [parseItems, if_neg ht]]
        obtain ⟨ih1, ih2⟩ := ih (n + 1)
        refine ⟨?_, ?_⟩
        · simp only [List.map_cons, List.length_cons, ih1, List.range'_succ]
        · intro hs i hi
          rcases List.mem_cons.mp hi with rfl | hi'
          · exact ht
          · exact ih2 (fun x hx => hs x (List.mem_cons_of_mem _ hx)) i hi'
    | otherItem =>
      rw [show parseItems (.otherItem :: rest) n = parseItems rest n from rfl]
      obtain ⟨ih1, ih2⟩ := ih n
      exact ⟨ih1, fun hs => ih2 fun x hx => hs x (List.mem_cons_of_mem _ hx)⟩

/-- C10 counterexample: a `recipeInstructions` list containing one plain
empty string yields an instruction whose `text` is the empty string — the
plain-string branch of `_parse_instructions` has no `if text:` guard. -/
theorem parse_instructions_empty_text_cex :
    parse_instructions (.list [.str ""]) = [⟨1, ""⟩] := rfl

/-- C10 amended: the `step_number` fields of `_parse_instructions`' output
are exactly `1, 2, ..., n` in order for every input; every instruction
derived from a dict item has non-empty text by the `if text:` guards, but a
plain string item of the list is emitted verbatim, so the non-empty-text
guarantee additionally requires that every plain-string item be non-empty. -/
theorem parse_instructions_amended (v : InstructionsValue) :
    (parse_instructions v).map (fun i => i.step_number) =
      List.range' 1 (parse_instructions v).length ∧
    (stringItemsOk v = true → ∀ i ∈ parse_instructions v, i.text ≠ "") := by
  cases v with
  | str s =>
    by_cases hs : s = ""
    · rw [show parse_instructions (.str s) = [] by
        rw [parse_instructions, if_pos hs]]
      exact ⟨rfl, by simp⟩
    · rw [show parse_instructions (.str s) = [⟨1, s⟩] by
        rw [parse_instructions, if_neg hs]]
      refine ⟨rfl, fun _ i hi => ?_⟩
      rcases List.mem_singleton.mp hi with rfl
      exact hs
  | list items =>
    by_cases hi : items = []
    · rw [show parse_instructions (.list items) = [] by
        rw [parse_instructions, if_pos hi]]
      exact ⟨rfl, by simp⟩
    · rw [show parse_instructions (.list items) = parseItems items 1 by
        rw [parse_instructions, if_neg hi]]
      obtain ⟨h1, h2⟩ := parseItems_spec items 1
      refine ⟨h1, fun hok => h2 ?_⟩
      intro s hs
      have := List.all_eq_true.mp hok _ hs
      simpa using this
  | null => exact ⟨rfl, by simp [parse_instructions]⟩
  | otherVal => exact ⟨rfl, by simp [parse_instructions]⟩

/-- Witness for C10's amended theorem: a list of one non-empty string item
and one `HowToStep` is numbered `1, 2` and all texts are non-empty. -/
theorem parse_instructions_amended_witness :
    (parse_instructions (.list [.str "a", .howToStep "b"])).map
        (fun i => i.step_number) =
      List.range' 1 (parse_instructions (.list [.str "a", .howToStep "b"])).length ∧
    (∀ i ∈ parse_instructions (.list [.str "a", .howToStep "b"]), i.text ≠ "") :=
  ⟨(parse_instructions_amended (.list [.str "a", .howToStep "b"])).1,
   (parse_instructions_amended (.list [.str "a", .howToStep "b"])).2 (by decide)⟩

end SchemaMapper

namespace BackupService

/-- `RecipeComplexity` enum (`app/models/recipe.py`). -/
inductive RecipeComplexity where
  | very_easy | easy | medium | hard | very_hard
deriving DecidableEq, Repr

/-- Lookup of a `RecipeComplexity` member by its string value, as the
enum constructor `RecipeComplexity(value)` does. -/
def RecipeComplexity.ofString? : String → Option RecipeComplexity
  | "very_easy" => some .very_easy
  | "easy" => some .easy
  | "medium" => some .medium
  | "hard" => some .hard
  | "very_hard" => some .very_hard
  | _ => none

/-- `BackupIngredient` / `Ingredient` schema fields. -/
structure Ingredient where
  name : String
  quantity : Option String := none
  unit : Option String := none
  notes : Option String := none
deriving DecidableEq

/-- `BackupInstruction` / `Instruction` schema fields. -/
structure BInstruction where
  step_number : Int
  text : String
deriving DecidableEq

/-- `BackupRecipe` pydantic schema (`app/schemas/backup_schemas.py`). -/
structure BackupRecipe where
  title : String
  description : Option String := none
  ingredients : List Ingredient := []
  instructions : List BInstruction := []
  prep_time_minutes : Option Int := none
  cook_time_minutes : Option Int := none
  servings : Option Int := none
  notes : Option String := none
  complexity : Option String := none
  special_equipment : Option (List String) := none
  source_author : Option String := none
  source_url : Option String := none
  category_name : Option String := none
  tag_names : List String := []
  original_author : String := ""
  created_at : Nat := 0
deriving DecidableEq

/-- A row of the `recipes` table, with its category foreign key, owner and
tag relationship (`app/models/recipe.py`). Row ids are modelled as `Nat`. -/
structure Recipe where
  id : Nat
  title : String
  description : Option String := none
  ingredients : List Ingredient := []
  instructions : List BInstruction := []
  prep_time_minutes : Option Int := none
  cook_time_minutes : Option Int := none
  servings : Option Int := none
  notes : Option String := none
  complexity : Option RecipeComplexity := none
  special_equipment : Option (List String) := none
  source_author : Option String := none
  source_url : Option String := none
  category_id : Option Nat := none
  user_id : Nat
  tags : List Nat := []
deriving DecidableEq

/-- A row of the `categories` table. -/
structure Category where
  id : Nat
  name : String
deriving DecidableEq

/-- A row of the `tags` table. -/
structure Tag where
  id : Nat
  name : String
deriving DecidableEq

/-- The database state seen by one import request: the three tables and a
fresh-id counter standing for the ORM's id generation. -/
structure DB where
  recipes : List Recipe := []
  categories : List Category := []
  tags : List Tag := []
  nextId : Nat := 0
deriving DecidableEq

/-- `ConflictStrategy` enum (`app/schemas/backup_schemas.py`). -/
inductive ConflictStrategy where
  | skip | replace | rename
deriving DecidableEq

/-- The `ImportResult` pydantic schema (`app/schemas/backup_schemas.py`
lines 55-64): every field is required — in particular `total_selected`
(line 57) has no default. `error_details` entries are the
`(title, error message)` pairs of the appended dicts. -/
structure ImportResult where
  total_in_file : Nat
  total_selected : Nat
  created : Nat
  skipped : Nat
  replaced : Nat
  errors : Nat
  categories_created : Nat
  tags_created : Nat
  error_details : List (String × String)
deriving DecidableEq

/-- The keyword arguments of an `ImportResult(...)` constructor call: `none`
stands for a keyword the caller did not pass. -/
structure ImportResultKwargs where
  total_in_file : Option Nat := none
  total_selected : Option Nat := none
  created : Option Nat := none
  skipped : Option Nat := none
  replaced : Option Nat := none
  errors : Option Nat := none
  categories_created : Option Nat := none
  tags_created : Option Nat := none
  error_details : Option (List (String × String)) := none

/-- The message of the pydantic `ValidationError` raised when a required
field of the schema is missing from the constructor call. -/
def validationErrorMsg : String := "ValidationError: Field required"

/-- pydantic validation of an `ImportResult(...)` constructor call: every
field of the schema is required, so construction succeeds exactly when the
call passes all of them, and raises `ValidationError` otherwise. -/
def validateImportResult (a : ImportResultKwargs) : Except String ImportResult :=
  match a.total_in_file, a.total_selected, a.created, a.skipped, a.replaced,
      a.errors, a.categories_created, a.tags_created, a.error_details with
  | some tf, some ts, some c, some s, some r, some e, some cc, some tc, some ed =>
    .ok ⟨tf, ts, c, s, r, e, cc, tc, ed⟩
  | _, _, _, _, _, _, _, _, _ => .error validationErrorMsg

/-- `db.query(Recipe).filter(Recipe.title == t).first()`. -/
def findRecipeByTitle (db : DB) (t : String) : Option Recipe :=
  db.recipes.find? (fun r => r.title = t)

/-- `_get_or_create_category` (`backup_service.py` lines 226-236):
returns `((id, was_created), new db)`. -/
def get_or_create_category (db : DB) (name : String) : (Nat × Bool) × DB :=
  match db.categories.find? (fun c => c.name = name) with
  | some c => ((c.id, false), db)
  | none =>
    ((db.nextId, true),
     { db with categories := db.categories ++ [⟨db.nextId, name⟩],
               nextId := db.nextId + 1 })

/-- The loop body of `_get_or_create_tags`, over the remaining names. -/
def getOrCreateTagsGo (db : DB) : List String → (List Nat × Nat) × DB
  | [] => (([], 0), db)
  | name :: rest =>
    match db.tags.find? (fun t => t.name = name) with
    | some t =>
      let ((ids, c), db') := getOrCreateTagsGo db rest
      ((t.id :: ids, c), db')
    | none =>
      let db1 : DB :=
        { db with tags := db.tags ++ [⟨db.nextId, name⟩], nextId := db.nextId + 1 }
      let ((ids, c), db') := getOrCreateTagsGo db1 rest
      ((db.nextId :: ids, c + 1), db')

/-- `_get_or_create_tags` (`backup_service.py` lines 238-258):
returns `((tag_ids, count_created), new db)`. -/
def get_or_create_tags (db : DB) (names : List String) : (List Nat × Nat) × DB :=
  if names = [] then (([], 0), db) else getOrCreateTagsGo db names

/-- The error message of the `ValueError` raised by `RecipeComplexity(s)`
for a value `s` that is not a member of the enum. -/
def invalidComplexityMsg (s : String) : String :=
  "'" ++ s ++ "' is not a valid RecipeComplexity"

/-- The `complexity` conversion in `_create_recipe_from_backup` /
`_update_recipe_from_backup`: the `if backup_recipe.complexity:` guard is
falsy for `None` and for `""`; otherwise `RecipeComplexity(value)` raises
`ValueError` on a non-member. -/
def parseComplexity : Option String → Except String (Option RecipeComplexity)
  | none => .ok none
  | some s =>
    if s = "" then .ok none
    else
      match RecipeComplexity.ofString? s with
      | some c => .ok (some c)
      | none => .error (invalidComplexityMsg s)

/-- The `category_name` handling shared by create and update: the guard
`if backup_recipe.category_name:` is falsy for `None` and `""`. Returns the
category id (if any), the updated result and the updated db. -/
def resolveCategory (db : DB) (res : ImportResult) (cname : Option String) :
    Option Nat × ImportResult × DB :=
  match cname with
  | none => (none, res, db)
  | some n =>
    if n = "" then (none, res, db)
    else
      let ((cid, created), db') := get_or_create_category db n
      (some cid,
       (if created then
          { res with categories_created := res.categories_created + 1 }
        else res),
       db')

/-- `db.query(Tag).filter(Tag.id.in_(tag_ids)).all()` projected to ids:
the tag rows whose id is among `tag_ids`, in table order. -/
def tagsByIds (db : DB) (tag_ids : List Nat) : List Nat :=
  (db.tags.filter (fun t => tag_ids.contains t.id)).map (fun t => t.id)

/-- `_create_recipe_from_backup` (`backup_service.py` lines 124-174).
Category and tag auto-creation happen (and are counted) before the
complexity conversion, which is the point where a bad `complexity` value
raises; the raise is modelled by the `Except.error` outcome, with the
mutations made so far kept in the returned state. -/
def create_recipe_from_backup (db : DB) (res : ImportResult)
    (br : BackupRecipe) (uid : Nat) : DB × ImportResult × Except String Unit :=
  let (category_id, res1, db1) := resolveCategory db res br.category_name
  let ((tag_ids, tags_created), db2) := get_or_create_tags db1 br.tag_names
  let res2 := { res1 with tags_created := res1.tags_created + tags_created }
  match parseComplexity br.complexity with
  | .error e => (db2, res2, .error e)
  | .ok cx =>
    let r : Recipe :=
      { id := db2.nextId,
        title := br.title,
        description := br.description,
        ingredients := br.ingredients,
        instructions := br.instructions,
        prep_time_minutes := br.prep_time_minutes,
        cook_time_minutes := br.cook_time_minutes,
        servings := br.servings,
        notes := br.notes,
        complexity := cx,
        special_equipment := br.special_equipment,
        source_author := br.source_author,
        source_url := br.source_url,
        category_id := category_id,
        user_id := uid,
        tags := if tag_ids ≠ [] then tagsByIds db2 tag_ids else [] }
    ({ db2 with recipes := db2.recipes ++ [r], nextId := db2.nextId + 1 },
     res2, .ok ())

/-- `_update_recipe_from_backup` (`backup_service.py` lines 176-224), acting
on the existing row `rid`. The field assignments (which never touch `title`)
happen only after the complexity conversion, so an errored record leaves the
recipe row unchanged, while categories/tags created before the raise stay. -/
def update_recipe_from_backup (db : DB) (res : ImportResult) (rid : Nat)
    (br : BackupRecipe) (uid : Nat) : DB × ImportResult × Except String Unit :=
  let (category_id, res1, db1) := resolveCategory db res br.category_name
  let ((tag_ids, tags_created), db2) := get_or_create_tags db1 br.tag_names
  let res2 := { res1 with tags_created := res1.tags_created + tags_created }
  match parseComplexity br.complexity with
  | .error e => (db2, res2, .error e)
  | .ok cx =>
    let upd : Recipe → Recipe := fun r =>
      if r.id = rid then
        { r with
          description := br.description,
          ingredients := br.ingredients,
          instructions := br.instructions,
          prep_time_minutes := br.prep_time_minutes,
          cook_time_minutes := br.cook_time_minutes,
          servings := br.servings,
          notes := br.notes,
          complexity := cx,
          special_equipment := br.special_equipment,
          source_author := br.source_author,
          source_url := br.source_url,
          category_id := category_id,
          user_id := uid,
          tags := if tag_ids ≠ [] then tagsByIds db2 tag_ids else [] }
      else r
    ({ db2 with recipes := db2.recipes.map upd }, res2, .ok ())

/-- Decimal digit characters of a positive `n`, by fuel-based division;
fuel `n` always suffices. -/
def natStrAux : Nat → Nat → List Char
  | 0, _ => []
  | fuel + 1, n =>
    if n = 0 then [] else natStrAux fuel (n / 10) ++ [Nat.digitChar (n % 10)]

/-- Decimal rendering of a `Nat`, as Python `str` renders the counter in
the f-string of `_generate_unique_title`. -/
def natStr (n : Nat) : String :=
  if n = 0 then "0" else ⟨natStrAux n n⟩

/-- The candidate title `f"{base_title} ({counter})"`. -/
def mkTitle (base : String) (n : Nat) : String :=
  base ++ " (" ++ natStr n ++ ")"

/-- The `while True` loop of `_generate_unique_title`, with explicit fuel;
`titles` are the recipe titles in the database. -/
def genUniqueTitleGo (titles : List String) (base : String) :
    Nat → Nat → String
  | counter, 0 => mkTitle base counter
  | counter, fuel + 1 =>
    let t := mkTitle base counter
    if titles.contains t then genUniqueTitleGo titles base (counter + 1) fuel
    else t

/-- `_generate_unique_title` (`backup_service.py` lines 260-273): starting at
counter 2, return the first `"<base> (n)"` not used as a recipe title. Fuel
`|recipes| + 1` provably suffices (pigeonhole, see the C3 theorem). -/
def generate_unique_title (db : DB) (base_title : String) : String :=
  genUniqueTitleGo (db.recipes.map (fun r => r.title)) base_title 2
    (db.recipes.length + 1)

/-- The `try/except` wrapper of the import loop: a successful outcome gets
the per-strategy counter update `ok`; an exception increments `errors` and
appends `{"title": ..., "error": str(e)}` to `error_details`. -/
def applyOutcome (br : BackupRecipe) (out : DB × ImportResult × Except String Unit)
    (ok : ImportResult → ImportResult) : DB × ImportResult :=
  match out with
  | (db', res', .ok _) => (db', ok res')
  | (db', res', .error e) =>
    (db', { res' with errors := res'.errors + 1,
                      error_details := res'.error_details ++ [(br.title, e)] })

/-- One iteration of the `for backup_recipe in backup_data.recipes` loop of
`import_recipes` (`backup_service.py` lines 79-119): the title-uniqueness
lookup, the three-way strategy branch, and the per-record error handler. -/
def importStep (uid : Nat) (strat : ConflictStrategy)
    (st : DB × ImportResult) (br : BackupRecipe) : DB × ImportResult :=
  let (db, res) := st
  match findRecipeByTitle db br.title with
  | some existing =>
    match strat with
    | .skip => (db, { res with skipped := res.skipped + 1 })
    | .replace =>
      applyOutcome br (update_recipe_from_backup db res existing.id br uid)
        (fun r => { r with replaced := r.replaced + 1 })
    | .rename =>
      applyOutcome br
        (create_recipe_from_backup db res
          { br with title := generate_unique_title db br.title } uid)
        (fun r => { r with created := r.created + 1 })
  | none =>
    applyOutcome br (create_recipe_from_backup db res br uid)
      (fun r => { r with created := r.created + 1 })

/-- `import_recipes` (`backup_service.py` lines 60-122): the
`ImportResult(...)` construction at lines 68-77 passes `total_in_file` and
the zeroed counters but not the schema's required `total_selected`, so
pydantic raises `ValidationError` there, before the record loop; had the
construction produced a result, the function would fold the per-record step
over the backup's records and return the final state. -/
def import_recipes (db : DB) (records : List BackupRecipe) (uid : Nat)
    (strat : ConflictStrategy) : Except String (DB × ImportResult) :=
  match validateImportResult
      { total_in_file := some records.length, created := some 0,
        skipped := some 0, replaced := some 0, errors := some 0,
        categories_created := some 0, tags_created := some 0,
        error_details := some [] } with
  | .error e => .error e
  | .ok res => .ok (records.foldl (importStep uid strat) (db, res))

end BackupService

namespace BackupService

theorem get_or_create_category_found (db : DB) (name : String) (c : Category)
    (h : db.categories.find? (fun x => x.name = name) = some c) :
    get_or_create_category db name = ((c.id, false), db) := by
  rw [get_or_create_category, h]

theorem get_or_create_category_new (db : DB) (name : String)
    (h : db.categories.find? (fun x => x.name = name) = none) :
    get_or_create_category db name =
      ((db.nextId, true),
       { db with categories := db.categories ++ [⟨db.nextId, name⟩],
                 nextId := db.nextId + 1 }) := by
  rw [get_or_create_category, h]

theorem get_or_create_category_proj (db : DB) (name : String) :
    (get_or_create_category db name).2.recipes = db.recipes ∧
    (get_or_create_category db name).2.tags = db.tags := by
  cases h : db.categories.find? (fun x => x.name = name) with
  | none => rw [get_or_create_category_new db name h]; exact ⟨rfl, rfl⟩
  | some c => rw [get_or_create_category_found db name c h]; exact ⟨rfl, rfl⟩

theorem getOrCreateTagsGo_found (db : DB) (name : String) (rest : List String)
    (t : Tag) (h : db.tags.find? (fun x => x.name = name) = some t) :
    getOrCreateTagsGo db (name :: rest) =
      ((t.id :: (getOrCreateTagsGo db rest).1.1, (getOrCreateTagsGo db rest).1.2),
       (getOrCreateTagsGo db rest).2) := by
  obtain ⟨ids, c, db', hx⟩ : ∃ ids c db', getOrCreateTagsGo db rest = ((ids, c), db') :=
    ⟨_, _, _, rfl⟩
  rw [getOrCreateTagsGo, h, hx]

theorem getOrCreateTagsGo_new (db : DB) (name : String) (rest : List String)
    (h : db.tags.find? (fun x => x.name = name) = none) :
    getOrCreateTagsGo db (name :: rest) =
      ((db.nextId ::
          (getOrCreateTagsGo
            { db with tags := db.tags ++ [⟨db.nextId, name⟩],
                      nextId := db.nextId + 1 } rest).1.1,
        (getOrCreateTagsGo
          { db with tags := db.tags ++ [⟨db.nextId, name⟩],
                    nextId := db.nextId + 1 } rest).1.2 + 1),
       (getOrCreateTagsGo
         { db with tags := db.tags ++ [⟨db.nextId, name⟩],
                   nextId := db.nextId + 1 } rest).2) := by
  rw [getOrCreateTagsGo, h]

theorem getOrCreateTagsGo_proj : ∀ (names : List String) (db : DB),
    (getOrCreateTagsGo db names).2.recipes = db.recipes ∧
    (getOrCreateTagsGo db names).2.categories = db.categories := by
  intro names
  induction names with
  | nil => intro db; exact ⟨rfl, rfl⟩
  | cons name rest ih =>
    intro db
    cases h : db.tags.find? (fun x => x.name = name) with
    | some t => rw [getOrCreateTagsGo_found db name rest t h]; exact ih db
    | none =>
      rw [getOrCreateTagsGo_new db name rest h]
      exact ih { db with tags := db.tags ++ [⟨db.nextId, name⟩],
                         nextId := db.nextId + 1 }

theorem get_or_create_tags_eq_go (db : DB) (names : List String) :
    get_or_create_tags db names = getOrCreateTagsGo db names := by
  cases names with
  | nil => rfl
  | cons n rest => rw [get_or_create_tags, if_neg (by simp)]

theorem resolveCategory_proj (db : DB) (res : ImportResult) (cname : Option String) :
    (resolveCategory db res cname).2.2.recipes = db.recipes ∧
    (resolveCategory db res cname).2.2.tags = db.tags ∧
    (resolveCategory db res cname).2.1.created = res.created ∧
    (resolveCategory db res cname).2.1.skipped = res.skipped ∧
    (resolveCategory db res cname).2.1.replaced = res.replaced ∧
    (resolveCategory db res cname).2.1.errors = res.errors ∧
    (resolveCategory db res cname).2.1.error_details = res.error_details ∧
    (resolveCategory db res cname).2.1.total_in_file = res.total_in_file ∧
    (resolveCategory db res cname).2.1.tags_created = res.tags_created := by
  cases cname with
  | none => exact ⟨rfl, rfl, rfl, rfl, rfl, rfl, rfl, rfl, rfl⟩
  | some n =>
    by_cases hn : n = ""
    · rw [resolveCategory, if_pos hn]
      exact ⟨rfl, rfl, rfl, rfl, rfl, rfl, rfl, rfl, rfl⟩
    · obtain ⟨cid, created, db', hx⟩ : ∃ a b c,
          get_or_create_category db n = ((a, b), c) := ⟨_, _, _, rfl⟩
      have hp := get_or_create_category_proj db n
      rw [hx] at hp
      rw [resolveCategory, if_neg hn, hx]
      cases created with
      | false => exact ⟨hp.1, hp.2, rfl, rfl, rfl, rfl, rfl, rfl, rfl⟩
      | true => exact ⟨hp.1, hp.2, rfl, rfl, rfl, rfl, rfl, rfl, rfl⟩

theorem create_recipe_spec (db : DB) (res : ImportResult) (br : BackupRecipe)
    (uid : Nat) :
    (create_recipe_from_backup db res br uid).2.1.created = res.created ∧
    (create_recipe_from_backup db res br uid).2.1.skipped = res.skipped ∧
    (create_recipe_from_backup db res br uid).2.1.replaced = res.replaced ∧
    (create_recipe_from_backup db res br uid).2.1.errors = res.errors ∧
    (create_recipe_from_backup db res br uid).2.1.error_details = res.error_details ∧
    (create_recipe_from_backup db res br uid).2.1.total_in_file = res.total_in_file ∧
    (∀ e, parseComplexity br.complexity = .error e →
      (create_recipe_from_backup db res br uid).2.2 = .error e ∧
      (create_recipe_from_backup db res br uid).1.recipes = db.recipes) ∧
    (∀ cx, parseComplexity br.complexity = .ok cx →
      (create_recipe_from_backup db res br uid).2.2 = .ok () ∧
      ∃ r : Recipe,
        (create_recipe_from_backup db res br uid).1.recipes = db.recipes ++ [r] ∧
        r.title = br.title ∧ r.description = br.description ∧
        r.ingredients = br.ingredients ∧ r.instructions = br.instructions ∧
        r.prep_time_minutes = br.prep_time_minutes ∧
        r.cook_time_minutes = br.cook_time_minutes ∧
        r.servings = br.servings ∧ r.notes = br.notes ∧ r.complexity = cx ∧
        r.special_equipment = br.special_equipment ∧
        r.source_author = br.source_author ∧ r.source_url = br.source_url ∧
        r.user_id = uid) := by
  obtain ⟨cid, res1, db1, hrc⟩ : ∃ a b c,
      resolveCategory db res br.category_name = (a, b, c) := ⟨_, _, _, rfl⟩
  have hp := resolveCategory_proj db res br.category_name
  rw [hrc] at hp
  dsimp only at hp
  obtain ⟨ids, tc, db2, htg⟩ : ∃ a b c,
      get_or_create_tags db1 br.tag_names = ((a, b), c) := ⟨_, _, _, rfl⟩
  have hq := getOrCreateTagsGo_proj br.tag_names db1
  rw [← get_or_create_tags_eq_go, htg] at hq
  dsimp only at hq
  cases hcx : parseComplexity br.complexity with
  | error e =>
    simp only [create_recipe_from_backup, hrc, htg, hcx]
    refine ⟨hp.2.2.1, hp.2.2.2.1, hp.2.2.2.2.1, hp.2.2.2.2.2.1,
      hp.2.2.2.2.2.2.1, hp.2.2.2.2.2.2.2.1, ?_, ?_⟩
    · intro e' he'
      cases he'
      exact ⟨rfl, hq.1.trans hp.1⟩
    · intro cx hcontra
      exact absurd hcontra (by simp)
  | ok cx =>
    simp only [create_recipe_from_backup, hrc, htg, hcx]
    refine ⟨hp.2.2.1, hp.2.2.2.1, hp.2.2.2.2.1, hp.2.2.2.2.2.1,
      hp.2.2.2.2.2.2.1, hp.2.2.2.2.2.2.2.1, ?_, ?_⟩
    · intro e' he'
      exact absurd he' (by simp)
    · intro cx' hcx'
      cases hcx'
      refine ⟨by simp, ?_⟩
      exact ⟨_, by rw [hq.1, hp.1], rfl, rfl, rfl, rfl, rfl, rfl, rfl, rfl, rfl,
        rfl, rfl, rfl, rfl⟩

theorem update_recipe_spec (db : DB) (res : ImportResult) (rid : Nat)
    (br : BackupRecipe) (uid : Nat) :
    (update_recipe_from_backup db res rid br uid).2.1.created = res.created ∧
    (update_recipe_from_backup db res rid br uid).2.1.skipped = res.skipped ∧
    (update_recipe_from_backup db res rid br uid).2.1.replaced = res.replaced ∧
    (update_recipe_from_backup db res rid br uid).2.1.errors = res.errors ∧
    (update_recipe_from_backup db res rid br uid).2.1.error_details =
      res.error_details ∧
    (update_recipe_from_backup db res rid br uid).2.1.total_in_file =
      res.total_in_file ∧
    (∀ e, parseComplexity br.complexity = .error e →
      (update_recipe_from_backup db res rid br uid).2.2 = .error e ∧
      (update_recipe_from_backup db res rid br uid).1.recipes = db.recipes) ∧
    (∀ cx, parseComplexity br.complexity = .ok cx →
      (update_recipe_from_backup db res rid br uid).2.2 = .ok () ∧
      ∃ f : Recipe → Recipe,
        (update_recipe_from_backup db res rid br uid).1.recipes =
          db.recipes.map (fun r => if r.id = rid then f r else r) ∧
        ∀ r : Recipe,
          (f r).id = r.id ∧ (f r).title = r.title ∧
          (f r).description = br.description ∧
          (f r).ingredients = br.ingredients ∧
          (f r).instructions = br.instructions ∧
          (f r).prep_time_minutes = br.prep_time_minutes ∧
          (f r).cook_time_minutes = br.cook_time_minutes ∧
          (f r).servings = br.servings ∧ (f r).notes = br.notes ∧
          (f r).complexity = cx ∧
          (f r).special_equipment = br.special_equipment ∧
          (f r).source_author = br.source_author ∧
          (f r).source_url = br.source_url ∧ (f r).user_id = uid) := by
  obtain ⟨cid, res1, db1, hrc⟩ : ∃ a b c,
      resolveCategory db res br.category_name = (a, b, c) := ⟨_, _, _, rfl⟩
  have hp := resolveCategory_proj db res br.category_name
  rw [hrc] at hp
  dsimp only at hp
  obtain ⟨ids, tc, db2, htg⟩ : ∃ a b c,
      get_or_create_tags db1 br.tag_names = ((a, b), c) := ⟨_, _, _, rfl⟩
  have hq := getOrCreateTagsGo_proj br.tag_names db1
  rw [← get_or_create_tags_eq_go, htg] at hq
  dsimp only at hq
  cases hcx : parseComplexity br.complexity with
  | error e =>
    simp only [update_recipe_from_backup, hrc, htg, hcx]
    refine ⟨hp.2.2.1, hp.2.2.2.1, hp.2.2.2.2.1, hp.2.2.2.2.2.1,
      hp.2.2.2.2.2.2.1, hp.2.2.2.2.2.2.2.1, ?_, ?_⟩
    · intro e' he'
      cases he'
      exact ⟨rfl, hq.1.trans hp.1⟩
    · intro cx hcontra
      exact absurd hcontra (by simp)
  | ok cx =>
    simp only [update_recipe_from_backup, hrc, htg, hcx]
    refine ⟨hp.2.2.1, hp.2.2.2.1, hp.2.2.2.2.1, hp.2.2.2.2.2.1,
      hp.2.2.2.2.2.2.1, hp.2.2.2.2.2.2.2.1, ?_, ?_⟩
    · intro e' he'
      exact absurd he' (by simp)
    · intro cx' hcx'
      cases hcx'
      refine ⟨by simp, ?_⟩
      refine ⟨fun r =>
        { r with
          description := br.description,
          ingredients := br.ingredients,
          instructions := br.instructions,
          prep_time_minutes := br.prep_time_minutes,
          cook_time_minutes := br.cook_time_minutes,
          servings := br.servings,
          notes := br.notes,
          complexity := cx,
          special_equipment := br.special_equipment,
          source_author := br.source_author,
          source_url := br.source_url,
          category_id := cid,
          user_id := uid,
          tags := if ids ≠ [] then tagsByIds db2 ids else [] }, ?_, ?_⟩
      · rw [hq.1, hp.1]
      · intro r
        exact ⟨rfl, rfl, rfl, rfl, rfl, rfl, rfl, rfl, rfl, rfl, rfl, rfl, rfl, rfl⟩

theorem applyOutcome_ok (br : BackupRecipe) (db' : DB) (res' : ImportResult)
    (okf : ImportResult → ImportResult) :
    applyOutcome br (db', res', .ok ()) okf = (db', okf res') := rfl

theorem applyOutcome_err (br : BackupRecipe) (db' : DB) (res' : ImportResult)
    (e : String) (okf : ImportResult → ImportResult) :
    applyOutcome br (db', res', .error e) okf =
      (db', { res' with errors := res'.errors + 1,
                        error_details := res'.error_details ++ [(br.title, e)] }) := rfl

theorem importStep_none (uid : Nat) (strat : ConflictStrategy) (db : DB)
    (res : ImportResult) (br : BackupRecipe)
    (hf : findRecipeByTitle db br.title = none) :
    importStep uid strat (db, res) br =
      applyOutcome br (create_recipe_from_backup db res br uid)
        (fun r => { r with created := r.created + 1 }) := by
  simp only [importStep, hf]

theorem importStep_skip (uid : Nat) (db : DB) (res : ImportResult)
    (br : BackupRecipe) (ex : Recipe)
    (hf : findRecipeByTitle db br.title = some ex) :
    importStep uid .skip (db, res) br =
      (db, { res with skipped := res.skipped + 1 }) := by
  simp only [importStep, hf]

theorem importStep_replace (uid : Nat) (db : DB) (res : ImportResult)
    (br : BackupRecipe) (ex : Recipe)
    (hf : findRecipeByTitle db br.title = some ex) :
    importStep uid .replace (db, res) br =
      applyOutcome br (update_recipe_from_backup db res ex.id br uid)
        (fun r => { r with replaced := r.replaced + 1 }) := by
  simp only [importStep, hf]

theorem importStep_rename (uid : Nat) (db : DB) (res : ImportResult)
    (br : BackupRecipe) (ex : Recipe)
    (hf : findRecipeByTitle db br.title = some ex) :
    importStep uid .rename (db, res) br =
      applyOutcome br
        (create_recipe_from_backup db res
          { br with title := generate_unique_title db br.title } uid)
        (fun r => { r with created := r.created + 1 }) := by
  simp only [importStep, hf]

theorem importStep_counter_sum (uid : Nat) (strat : ConflictStrategy) (db : DB)
    (res : ImportResult) (br : BackupRecipe) :
    (importStep uid strat (db, res) br).2.created +
      (importStep uid strat (db, res) br).2.skipped +
      (importStep uid strat (db, res) br).2.replaced +
      (importStep uid strat (db, res) br).2.errors =
      res.created + res.skipped + res.replaced + res.errors + 1 ∧
    (importStep uid strat (db, res) br).2.total_in_file = res.total_in_file := by
  cases hf : findRecipeByTitle db br.title with
  | none =>
    obtain ⟨dbx, resx, out, hc⟩ : ∃ a b c,
        create_recipe_from_backup db res br uid = (a, b, c) := ⟨_, _, _, rfl⟩
    have hcs := create_recipe_spec db res br uid
    rw [hc] at hcs
    dsimp only at hcs
    obtain ⟨h1, h2, h3, h4, h5, h6, _, _⟩ := hcs
    rw [importStep_none uid strat db res br hf, hc]
    cases out with
    | ok u =>
      cases u
      rw [applyOutcome_ok]
      exact ⟨by dsimp only; omega, h6⟩
    | error e =>
      rw [applyOutcome_err]
      exact ⟨by dsimp only; omega, h6⟩
  | some ex =>
    cases strat with
    | skip =>
      rw [importStep_skip uid db res br ex hf]
      exact ⟨by dsimp only; omega, rfl⟩
    | replace =>
      obtain ⟨dbx, resx, out, hc⟩ : ∃ a b c,
          update_recipe_from_backup db res ex.id br uid = (a, b, c) := ⟨_, _, _, rfl⟩
      have hcs := update_recipe_spec db res ex.id br uid
      rw [hc] at hcs
      dsimp only at hcs
      obtain ⟨h1, h2, h3, h4, h5, h6, _, _⟩ := hcs
      rw [importStep_replace uid db res br ex hf, hc]
      cases out with
      | ok u =>
        cases u
        rw [applyOutcome_ok]
        exact ⟨by dsimp only; omega, h6⟩
      | error e =>
        rw [applyOutcome_err]
        exact ⟨by dsimp only; omega, h6⟩
    | rename =>
      obtain ⟨dbx, resx, out, hc⟩ : ∃ a b c,
          create_recipe_from_backup db res
            { br with title := generate_unique_title db br.title } uid =
            (a, b, c) := ⟨_, _, _, rfl⟩
      have hcs := create_recipe_spec db res
        { br with title := generate_unique_title db br.title } uid
      rw [hc] at hcs
      dsimp only at hcs
      obtain ⟨h1, h2, h3, h4, h5, h6, _, _⟩ := hcs
      rw [importStep_rename uid db res br ex hf, hc]
      cases out with
      | ok u =>
        cases u
        rw [applyOutcome_ok]
        exact ⟨by dsimp only; omega, h6⟩
      | error e =>
        rw [applyOutcome_err]
        exact ⟨by dsimp only; omega, h6⟩

theorem import_fold_counter_sum (uid : Nat) (strat : ConflictStrategy) :
    ∀ (records : List BackupRecipe) (st : DB × ImportResult),
      (records.foldl (importStep uid strat) st).2.created +
        (records.foldl (importStep uid strat) st).2.skipped +
        (records.foldl (importStep uid strat) st).2.replaced +
        (records.foldl (importStep uid strat) st).2.errors =
        st.2.created + st.2.skipped + st.2.replaced + st.2.errors +
          records.length ∧
      (records.foldl (importStep uid strat) st).2.total_in_file =
        st.2.total_in_file := by
  intro records
  induction records with
  | nil => intro st; exact ⟨rfl, rfl⟩
  | cons br rest ih =>
    intro st
    obtain ⟨sdb, sres⟩ := st
    rw [List.foldl_cons]
    obtain ⟨ih1, ih2⟩ := ih (importStep uid strat (sdb, sres) br)
    obtain ⟨hs1, hs2⟩ := importStep_counter_sum uid strat sdb sres br
    refine ⟨?_, ?_⟩
    · rw [ih1]
      simp only [List.length_cons]
      omega
    · rw [ih2]
      exact hs2

/-- C8 (code bug): `import_recipes` never returns an `ImportResult` at all:
the constructor call at `backup_service.py` lines 68-77 omits the schema's
required `total_selected` field, so pydantic validation raises
`ValidationError` on every call, before the record loop. The accounting
identity the claim states does hold of the record loop itself
(`import_fold_counter_sum`), which is why it is the evident intent — the
unit tests of the service assert the individual counters of a returned
result. -/
theorem import_recipes_never_returns (db : DB) (records : List BackupRecipe)
    (uid : Nat) (strat : ConflictStrategy) :
    import_recipes db records uid strat = .error validationErrorMsg := rfl

/-- C1 (code bug): the claim describes the intended per-record three-way
action of `import_recipes` (characterized by
`importStep_conflict_strategy`), but the function raises `ValidationError`
constructing its `ImportResult` before examining any record, so with every
strategy no record is ever created, skipped, replaced or renamed. -/
theorem import_recipes_raises_before_loop :
    import_recipes {} [{ title := "A" }] 7 .skip = .error validationErrorMsg ∧
    import_recipes {} [{ title := "A" }] 7 .replace = .error validationErrorMsg ∧
    import_recipes {} [{ title := "A" }] 7 .rename = .error validationErrorMsg :=
  ⟨rfl, rfl, rfl⟩

/-- The per-record loop body of `import_recipes` (lines 79-119, the code
the `ValidationError` at line 68 precedes): given that the record's
processing raises no exception (its complexity value parses), one of three
actions is taken, decided by the title-uniqueness lookup and the strategy:
no existing title → the record is created; existing + `skip` → counted
skipped, database untouched; existing + `replace` → the existing row's
fields are overwritten with the record's data (title kept); existing +
`rename` → a new recipe is created under the suffixed unique title and
every existing row is left unchanged. -/
theorem importStep_conflict_strategy (uid : Nat) (strat : ConflictStrategy)
    (db : DB) (res : ImportResult) (br : BackupRecipe)
    (cx : Option RecipeComplexity)
    (h : parseComplexity br.complexity = Except.ok cx) :
    (findRecipeByTitle db br.title = none →
      ∃ r : Recipe,
        (importStep uid strat (db, res) br).1.recipes = db.recipes ++ [r] ∧
        r.title = br.title ∧ r.description = br.description ∧
        r.ingredients = br.ingredients ∧ r.instructions = br.instructions ∧
        r.prep_time_minutes = br.prep_time_minutes ∧
        r.cook_time_minutes = br.cook_time_minutes ∧
        r.servings = br.servings ∧ r.notes = br.notes ∧ r.complexity = cx ∧
        r.special_equipment = br.special_equipment ∧
        r.source_author = br.source_author ∧ r.source_url = br.source_url ∧
        r.user_id = uid ∧
        (importStep uid strat (db, res) br).2.created = res.created + 1 ∧
        (importStep uid strat (db, res) br).2.skipped = res.skipped ∧
        (importStep uid strat (db, res) br).2.replaced = res.replaced ∧
        (importStep uid strat (db, res) br).2.errors = res.errors) ∧
    (∀ ex : Recipe, findRecipeByTitle db br.title = some ex →
      (strat = .skip →
        importStep uid strat (db, res) br =
          (db, { res with skipped := res.skipped + 1 })) ∧
      (strat = .replace →
        ∃ f : Recipe → Recipe,
          (importStep uid strat (db, res) br).1.recipes =
            db.recipes.map (fun r => if r.id = ex.id then f r else r) ∧
          (∀ r : Recipe, (f r).id = r.id ∧ (f r).title = r.title ∧
            (f r).description = br.description ∧
            (f r).ingredients = br.ingredients ∧
            (f r).instructions = br.instructions ∧
            (f r).prep_time_minutes = br.prep_time_minutes ∧
            (f r).cook_time_minutes = br.cook_time_minutes ∧
            (f r).servings = br.servings ∧ (f r).notes = br.notes ∧
            (f r).complexity = cx ∧
            (f r).special_equipment = br.special_equipment ∧
            (f r).source_author = br.source_author ∧
            (f r).source_url = br.source_url ∧ (f r).user_id = uid) ∧
          (importStep uid strat (db, res) br).2.replaced = res.replaced + 1 ∧
          (importStep uid strat (db, res) br).2.created = res.created ∧
          (importStep uid strat (db, res) br).2.skipped = res.skipped ∧
          (importStep uid strat (db, res) br).2.errors = res.errors) ∧
      (strat = .rename →
        ∃ r : Recipe,
          (importStep uid strat (db, res) br).1.recipes = db.recipes ++ [r] ∧
          r.title = generate_unique_title db br.title ∧
          r.description = br.description ∧ r.ingredients = br.ingredients ∧
          r.instructions = br.instructions ∧
          r.prep_time_minutes = br.prep_time_minutes ∧
          r.cook_time_minutes = br.cook_time_minutes ∧
          r.servings = br.servings ∧ r.notes = br.notes ∧ r.complexity = cx ∧
          r.special_equipment = br.special_equipment ∧
          r.source_author = br.source_author ∧ r.source_url = br.source_url ∧
          r.user_id = uid ∧
          (importStep uid strat (db, res) br).2.created = res.created + 1 ∧
          (importStep uid strat (db, res) br).2.skipped = res.skipped ∧
          (importStep uid strat (db, res) br).2.replaced = res.replaced ∧
          (importStep uid strat (db, res) br).2.errors = res.errors)) := by
  constructor
  · intro hf
    obtain ⟨dbx, resx, out, hc⟩ : ∃ a b c,
        create_recipe_from_backup db res br uid = (a, b, c) := ⟨_, _, _, rfl⟩
    have hcs := create_recipe_spec db res br uid
    rw [hc] at hcs
    dsimp only at hcs
    obtain ⟨h1, h2, h3, h4, _, _, _, hok⟩ := hcs
    obtain ⟨houtEq, r, hrrec, hfl⟩ := hok cx h
    rw [importStep_none uid strat db res br hf, hc, houtEq, applyOutcome_ok]
    dsimp only
    exact ⟨r, hrrec, hfl.1, hfl.2.1, hfl.2.2.1, hfl.2.2.2.1, hfl.2.2.2.2.1,
      hfl.2.2.2.2.2.1, hfl.2.2.2.2.2.2.1, hfl.2.2.2.2.2.2.2.1,
      hfl.2.2.2.2.2.2.2.2.1, hfl.2.2.2.2.2.2.2.2.2.1,
      hfl.2.2.2.2.2.2.2.2.2.2.1, hfl.2.2.2.2.2.2.2.2.2.2.2.1,
      hfl.2.2.2.2.2.2.2.2.2.2.2.2, by rw [h1], h2, h3, h4⟩
  · intro ex hf
    refine ⟨?_, ?_, ?_⟩
    · intro hstrat
      subst hstrat
      exact importStep_skip uid db res br ex hf
    · intro hstrat
      subst hstrat
      obtain ⟨dbx, resx, out, hc⟩ : ∃ a b c,
          update_recipe_from_backup db res ex.id br uid = (a, b, c) := ⟨_, _, _, rfl⟩
      have hcs := update_recipe_spec db res ex.id br uid
      rw [hc] at hcs
      dsimp only at hcs
      obtain ⟨h1, h2, h3, h4, _, _, _, hok⟩ := hcs
      obtain ⟨houtEq, f, hrrec, hfl⟩ := hok cx h
      rw [importStep_replace uid db res br ex hf, hc, houtEq, applyOutcome_ok]
      dsimp only
      exact ⟨f, hrrec, hfl, by rw [h3], h1, h2, h4⟩
    · intro hstrat
      subst hstrat
      obtain ⟨dbx, resx, out, hc⟩ : ∃ a b c,
          create_recipe_from_backup db res
            { br with title := generate_unique_title db br.title } uid =
            (a, b, c) := ⟨_, _, _, rfl⟩
      have hcs := create_recipe_spec db res
        { br with title := generate_unique_title db br.title } uid
      rw [hc] at hcs
      dsimp only at hcs
      obtain ⟨h1, h2, h3, h4, _, _, _, hok⟩ := hcs
      obtain ⟨houtEq, r, hrrec, hfl⟩ := hok cx h
      rw [importStep_rename uid db res br ex hf, hc, houtEq, applyOutcome_ok]
      dsimp only
      exact ⟨r, hrrec, hfl.1, hfl.2.1, hfl.2.2.1, hfl.2.2.2.1, hfl.2.2.2.2.1,
        hfl.2.2.2.2.2.1, hfl.2.2.2.2.2.2.1, hfl.2.2.2.2.2.2.2.1,
        hfl.2.2.2.2.2.2.2.2.1, hfl.2.2.2.2.2.2.2.2.2.1,
        hfl.2.2.2.2.2.2.2.2.2.2.1, hfl.2.2.2.2.2.2.2.2.2.2.2.1,
        hfl.2.2.2.2.2.2.2.2.2.2.2.2, by rw [h1], h2, h3, h4⟩

/-- Concrete instances of the loop-body characterization: from an empty
database a record is created; from a database holding the title, `skip`
leaves the database unchanged. -/
theorem importStep_conflict_strategy_witness :
    (∃ r : Recipe,
      (importStep 7 .skip ({}, ⟨1, 1, 0, 0, 0, 0, 0, 0, []⟩)
          { title := "A" }).1.recipes = ({} : DB).recipes ++ [r] ∧
      r.title = "A") ∧
    importStep 7 .skip
        ({ recipes := [{ id := 0, title := "A", user_id := 1 }], nextId := 1 },
          ⟨1, 1, 0, 0, 0, 0, 0, 0, []⟩)
        { title := "A" } =
      ({ recipes := [{ id := 0, title := "A", user_id := 1 }], nextId := 1 },
        { (⟨1, 1, 0, 0, 0, 0, 0, 0, []⟩ : ImportResult) with skipped := 0 + 1 }) := by
  constructor
  · obtain ⟨r, hr1, hr2, _⟩ :=
      (importStep_conflict_strategy 7 .skip {} ⟨1, 1, 0, 0, 0, 0, 0, 0, []⟩
        { title := "A" } none rfl).1 rfl
    exact ⟨r, hr1, hr2⟩
  · exact ((importStep_conflict_strategy 7 .skip
      { recipes := [{ id := 0, title := "A", user_id := 1 }], nextId := 1 }
      ⟨1, 1, 0, 0, 0, 0, 0, 0, []⟩ { title := "A" } none rfl).2
      { id := 0, title := "A", user_id := 1 } rfl).1 rfl

/-- A record whose complexity value is invalid and whose category is new:
the concrete input exhibiting partial state under a per-record error. -/
def cexRecord : BackupRecipe :=
  { title := "A", category_name := some "NewCat", complexity := some "bogus" }

/-- C2 counterexample: at a backup whose single record would raise (fresh
category name, invalid complexity), `import_recipes` increments no errors
counter and appends no error detail — it raises `ValidationError` before
the loop; and the loop body itself, run directly on the same record, counts
the error but leaves behind the category row created and counted before the
exception (no per-record rollback), i.e. partially imported state. -/
theorem import_error_partial_state_cex :
    import_recipes {} [cexRecord] 7 .skip = .error validationErrorMsg ∧
    (List.foldl (importStep 7 ConflictStrategy.skip)
        ({}, ⟨1, 1, 0, 0, 0, 0, 0, 0, []⟩) [cexRecord]).2.errors = 1 ∧
    (List.foldl (importStep 7 ConflictStrategy.skip)
        ({}, ⟨1, 1, 0, 0, 0, 0, 0, 0, []⟩) [cexRecord]).2.error_details =
      [("A", invalidComplexityMsg "bogus")] ∧
    (List.foldl (importStep 7 ConflictStrategy.skip)
        ({}, ⟨1, 1, 0, 0, 0, 0, 0, 0, []⟩) [cexRecord]).2.created = 0 ∧
    (List.foldl (importStep 7 ConflictStrategy.skip)
        ({}, ⟨1, 1, 0, 0, 0, 0, 0, 0, []⟩) [cexRecord]).1.recipes = [] ∧
    (List.foldl (importStep 7 ConflictStrategy.skip)
        ({}, ⟨1, 1, 0, 0, 0, 0, 0, 0, []⟩) [cexRecord]).1.categories =
      [⟨0, "NewCat"⟩] ∧
    (List.foldl (importStep 7 ConflictStrategy.skip)
        ({}, ⟨1, 1, 0, 0, 0, 0, 0, 0, []⟩) [cexRecord]).2.categories_created = 1 :=
  ⟨rfl, rfl, rfl, rfl, rfl, rfl, rfl⟩

/-- The error handler of the loop body: when a record's processing raises
(its complexity value is invalid and the record does not hit the
skip-on-existing branch, which never raises), the step increments `errors`,
appends the record's title and the exception message to `error_details`,
leaves the `recipes` table and the other three counters unchanged, and the
loop — being a fold — still processes every remaining record; categories
and tags created before the raise persist (no per-record rollback). -/
theorem importStep_error_isolation (uid : Nat) (strat : ConflictStrategy)
    (db : DB) (res : ImportResult) (br : BackupRecipe) (e : String)
    (hc : parseComplexity br.complexity = Except.error e)
    (hs : findRecipeByTitle db br.title = none ∨ strat ≠ ConflictStrategy.skip) :
    (importStep uid strat (db, res) br).2.errors = res.errors + 1 ∧
    (importStep uid strat (db, res) br).2.error_details =
      res.error_details ++ [(br.title, e)] ∧
    (importStep uid strat (db, res) br).1.recipes = db.recipes ∧
    (importStep uid strat (db, res) br).2.created = res.created ∧
    (importStep uid strat (db, res) br).2.skipped = res.skipped ∧
    (importStep uid strat (db, res) br).2.replaced = res.replaced ∧
    (∀ (pre post : List BackupRecipe) (st : DB × ImportResult),
      List.foldl (importStep uid strat) st (pre ++ post) =
        List.foldl (importStep uid strat)
          (List.foldl (importStep uid strat) st pre) post) := by
  have hfold : ∀ (pre post : List BackupRecipe) (st : DB × ImportResult),
      List.foldl (importStep uid strat) st (pre ++ post) =
        List.foldl (importStep uid strat)
          (List.foldl (importStep uid strat) st pre) post :=
    fun pre post st => List.foldl_append _ _ pre post
  cases hf : findRecipeByTitle db br.title with
  | none =>
    obtain ⟨dbx, resx, out, hcr⟩ : ∃ a b c,
        create_recipe_from_backup db res br uid = (a, b, c) := ⟨_, _, _, rfl⟩
    have hcs := create_recipe_spec db res br uid
    rw [hcr] at hcs
    dsimp only at hcs
    obtain ⟨h1, h2, h3, h4, h5, _, herrc, _⟩ := hcs
    obtain ⟨houtEq, hrec⟩ := herrc e hc
    rw [importStep_none uid strat db res br hf, hcr, houtEq, applyOutcome_err]
    dsimp only
    exact ⟨by rw [h4], by rw [h5], hrec, h1, h2, h3, hfold⟩
  | some ex =>
    cases strat with
    | skip =>
      rcases hs with hnone | hnskip
      · rw [hf] at hnone
        exact absurd hnone (by simp)
      · exact absurd rfl hnskip
    | replace =>
      obtain ⟨dbx, resx, out, hcr⟩ : ∃ a b c,
          update_recipe_from_backup db res ex.id br uid = (a, b, c) := ⟨_, _, _, rfl⟩
      have hcs := update_recipe_spec db res ex.id br uid
      rw [hcr] at hcs
      dsimp only at hcs
      obtain ⟨h1, h2, h3, h4, h5, _, herrc, _⟩ := hcs
      obtain ⟨houtEq, hrec⟩ := herrc e hc
      rw [importStep_replace uid db res br ex hf, hcr, houtEq, applyOutcome_err]
      dsimp only
      exact ⟨by rw [h4], by rw [h5], hrec, h1, h2, h3, hfold⟩
    | rename =>
      obtain ⟨dbx, resx, out, hcr⟩ : ∃ a b c,
          create_recipe_from_backup db res
            { br with title := generate_unique_title db br.title } uid =
            (a, b, c) := ⟨_, _, _, rfl⟩
      have hcs := create_recipe_spec db res
        { br with title := generate_unique_title db br.title } uid
      rw [hcr] at hcs
      dsimp only at hcs
      obtain ⟨h1, h2, h3, h4, h5, _, herrc, _⟩ := hcs
      obtain ⟨houtEq, hrec⟩ := herrc e hc
      rw [importStep_rename uid db res br ex hf, hcr, houtEq, applyOutcome_err]
      dsimp only
      exact ⟨by rw [h4], by rw [h5], hrec, h1, h2, h3, hfold⟩

/-- C2 amended: as written, `import_recipes` raises `ValidationError` on
every call before processing any record (its `ImportResult` construction
omits the required `total_selected` field), so no per-record error handling
is ever exercised; in the loop body that the raise precedes, a record
whose import raises increments `errors`, appends the record's title and
error message to `error_details`, leaves the `recipes` table and the
created/skipped/replaced counters unchanged, and the fold still processes
every remaining record — while categories and tags created before the
exception persist (no per-record rollback). -/
theorem import_error_isolation_amended :
    (∀ (db : DB) (records : List BackupRecipe) (uid : Nat)
      (strat : ConflictStrategy),
      import_recipes db records uid strat = .error validationErrorMsg) ∧
    (∀ (uid : Nat) (strat : ConflictStrategy) (db : DB) (res : ImportResult)
      (br : BackupRecipe) (e : String),
      parseComplexity br.complexity = Except.error e →
      (findRecipeByTitle db br.title = none ∨ strat ≠ ConflictStrategy.skip) →
      (importStep uid strat (db, res) br).2.errors = res.errors + 1 ∧
      (importStep uid strat (db, res) br).2.error_details =
        res.error_details ++ [(br.title, e)] ∧
      (importStep uid strat (db, res) br).1.recipes = db.recipes ∧
      (importStep uid strat (db, res) br).2.created = res.created ∧
      (importStep uid strat (db, res) br).2.skipped = res.skipped ∧
      (importStep uid strat (db, res) br).2.replaced = res.replaced ∧
      (∀ (pre post : List BackupRecipe) (st : DB × ImportResult),
        List.foldl (importStep uid strat) st (pre ++ post) =
          List.foldl (importStep uid strat)
            (List.foldl (importStep uid strat) st pre) post)) := by
  constructor
  · intro db records uid strat
    rfl
  · intro uid strat db res br e hc hs
    exact importStep_error_isolation uid strat db res br e hc hs

/-- Witness for C2's amended theorem at a concrete erroring record. -/
theorem import_error_isolation_amended_witness :
    (importStep 7 ConflictStrategy.skip ({}, ⟨1, 1, 0, 0, 0, 0, 0, 0, []⟩)
        cexRecord).2.errors = 0 + 1 ∧
    (importStep 7 ConflictStrategy.skip ({}, ⟨1, 1, 0, 0, 0, 0, 0, 0, []⟩)
        cexRecord).2.error_details =
      [] ++ [("A", invalidComplexityMsg "bogus")] ∧
    (importStep 7 ConflictStrategy.skip ({}, ⟨1, 1, 0, 0, 0, 0, 0, 0, []⟩)
        cexRecord).1.recipes = ({} : DB).recipes := by
  obtain ⟨h1, h2, h3, -⟩ := import_error_isolation_amended.2 7
    ConflictStrategy.skip {} ⟨1, 1, 0, 0, 0, 0, 0, 0, []⟩ cexRecord
    (invalidComplexityMsg "bogus") rfl (Or.inl rfl)
  exact ⟨h1, h2, h3⟩

theorem digitsVal_append (l : List Char) (c : Char) :
    SchemaMapper.digitsVal (l ++ [c]) =
      10 * SchemaMapper.digitsVal l + (c.toNat - 48) := by
  simp [SchemaMapper.digitsVal, List.foldl_append]

theorem digitChar_toNat (d : Nat) (h : d < 10) :
    (Nat.digitChar d).toNat - 48 = d := by
  interval_cases d <;> rfl

theorem natStrAux_val : ∀ (fuel n : Nat), n ≤ fuel →
    SchemaMapper.digitsVal (natStrAux fuel n) = n := by
  intro fuel
  induction fuel with
  | zero =>
    intro n h
    interval_cases n
    rfl
  | succ f ih =>
    intro n h
    by_cases hn : n = 0
    · subst hn
      rfl
    · have hdiv : n / 10 < n := Nat.div_lt_self (Nat.pos_of_ne_zero hn) (by omega)
      rw [natStrAux, if_neg hn, digitsVal_append, ih (n / 10) (by omega),
        digitChar_toNat (n % 10) (Nat.mod_lt n (by omega))]
      omega

theorem natStr_val (n : Nat) : SchemaMapper.digitsVal (natStr n).data = n := by
  by_cases hn : n = 0
  · subst hn
    decide
  · rw [natStr, if_neg hn]
    exact natStrAux_val n n (le_refl n)

theorem natStr_inj (m n : Nat) (h : natStr m = natStr n) : m = n := by
  have hm := natStr_val m
  rw [h, natStr_val n] at hm
  exact hm.symm

theorem mkTitle_inj (base : String) (m n : Nat)
    (h : mkTitle base m = mkTitle base n) : m = n := by
  apply natStr_inj
  have hd := congrArg String.data h
  simp only [mkTitle, String.data_append] at hd
  have h1 := List.append_cancel_right hd
  have h2 := List.append_cancel_left h1
  exact String.ext h2

theorem exists_free_title (titles : List String) (base : String) :
    ∃ k, 2 ≤ k ∧ k ≤ 2 + titles.length ∧ mkTitle base k ∉ titles := by
  by_contra hcon
  push_neg at hcon
  have hmaps : ∀ k ∈ Finset.Icc 2 (2 + titles.length),
      mkTitle base k ∈ titles.toFinset := by
    intro k hk
    rw [Finset.mem_Icc] at hk
    rw [List.mem_toFinset]
    exact hcon k hk.1 hk.2
  have hinj : Set.InjOn (mkTitle base) (Finset.Icc 2 (2 + titles.length)) :=
    fun a _ b _ hab => mkTitle_inj base a b hab
  have hcard := Finset.card_le_card_of_injOn (mkTitle base) hmaps hinj
  rw [Nat.card_Icc] at hcard
  have hle := titles.toFinset_card_le
  omega

theorem genGo_spec (titles : List String) (base : String) :
    ∀ (fuel counter : Nat),
      (∃ k, counter ≤ k ∧ k < counter + fuel ∧ mkTitle base k ∉ titles) →
      ∃ n, counter ≤ n ∧
        genUniqueTitleGo titles base counter fuel = mkTitle base n ∧
        mkTitle base n ∉ titles ∧
        ∀ m, counter ≤ m → m < n → mkTitle base m ∈ titles := by
  intro fuel
  induction fuel with
  | zero =>
    rintro counter ⟨k, hk1, hk2, -⟩
    exact absurd hk2 (by omega)
  | succ f ih =>
    rintro counter ⟨k, hk1, hk2, hk3⟩
    by_cases hc : titles.contains (mkTitle base counter) = true
    · have hmem : mkTitle base counter ∈ titles := by
        simpa using hc
      have hkne : k ≠ counter := fun he => hk3 (he ▸ hmem)
      obtain ⟨n, hn1, hn2, hn3, hn4⟩ := ih (counter + 1) ⟨k, by omega, by omega, hk3⟩
      refine ⟨n, by omega, ?_, hn3, ?_⟩
      · rw [genUniqueTitleGo, if_pos hc]
        exact hn2
      · intro m hm1 hm2
        rcases Nat.eq_or_lt_of_le hm1 with he | hlt
        · exact he ▸ hmem
        · exact hn4 m (by omega) hm2
    · refine ⟨counter, le_refl _, ?_, ?_, ?_⟩
      · rw [genUniqueTitleGo, if_neg hc]
      · intro hmem
        exact hc (by simpa using hmem)
      · intro m hm1 hm2
        exact absurd hm2 (by omega)

/-- C3: `_generate_unique_title` returns `"<base title> (n)"` — with `n`
rendered in decimal — where `n` is the least integer ≥ 2 such that no
recipe with that exact title exists; with finitely many recipes the search
provably terminates within `|recipes| + 1` probes (pigeonhole over the
injectively rendered candidate titles). -/
theorem generate_unique_title_spec (db : DB) (base_title : String) :
    ∃ n, 2 ≤ n ∧
      generate_unique_title db base_title = mkTitle base_title n ∧
      mkTitle base_title n ∉ db.recipes.map (fun r => r.title) ∧
      ∀ m, 2 ≤ m → m < n →
        mkTitle base_title m ∈ db.recipes.map (fun r => r.title) := by
  obtain ⟨k, hk1, hk2, hk3⟩ :=
    exists_free_title (db.recipes.map (fun r => r.title)) base_title
  have hLen : (db.recipes.map (fun r => r.title)).length = db.recipes.length :=
    List.length_map _ _
  obtain ⟨n, hn1, hn2, hn3, hn4⟩ :=
    genGo_spec (db.recipes.map (fun r => r.title)) base_title
      (db.recipes.length + 1) 2 ⟨k, hk1, by omega, hk3⟩
  exact ⟨n, hn1, hn2, hn3, hn4⟩

/-- The names among `names` that are not already tag names, deduplicated in
first-occurrence order: exactly the tag rows `_get_or_create_tags` creates. -/
def newNames (existing : List String) : List String → List String
  | [] => []
  | n :: rest =>
    if n ∈ existing then newNames existing rest
    else n :: newNames (existing ++ [n]) rest

theorem newNames_sound : ∀ (names existing : List String) (x : String),
    x ∈ newNames existing names ↔ (x ∈ names ∧ x ∉ existing) := by
  intro names
  induction names with
  | nil => intro existing x; simp [newNames]
  | cons n rest ih =>
    intro existing x
    by_cases hn : n ∈ existing
    · rw [newNames, if_pos hn, ih existing x]
      constructor
      · rintro ⟨hx1, hx2⟩
        exact ⟨List.mem_cons_of_mem _ hx1, hx2⟩
      · rintro ⟨hx1, hx2⟩
        rcases List.mem_cons.mp hx1 with rfl | hx1'
        · exact absurd hn hx2
        · exact ⟨hx1', hx2⟩
    · rw [newNames, if_neg hn]
      constructor
      · intro hx
        rcases List.mem_cons.mp hx with rfl | hx'
        · exact ⟨List.mem_cons_self _ _, hn⟩
        · obtain ⟨h1, h2⟩ := (ih (existing ++ [n]) x).mp hx'
          exact ⟨List.mem_cons_of_mem _ h1,
            fun hx2 => h2 (List.mem_append_left _ hx2)⟩
      · rintro ⟨hx1, hx2⟩
        rcases List.mem_cons.mp hx1 with rfl | hx1'
        · exact List.mem_cons_self _ _
        · by_cases hxn : x = n
          · subst hxn
            exact List.mem_cons_self _ _
          · refine List.mem_cons_of_mem _ ((ih (existing ++ [n]) x).mpr ⟨hx1', ?_⟩)
            intro hmem
            rcases List.mem_append.mp hmem with hm | hm
            · exact hx2 hm
            · exact hxn (List.mem_singleton.mp hm)

theorem newNames_nodup : ∀ (names existing : List String),
    (newNames existing names).Nodup := by
  intro names
  induction names with
  | nil => intro existing; exact List.nodup_nil
  | cons n rest ih =>
    intro existing
    by_cases hn : n ∈ existing
    · rw [newNames, if_pos hn]
      exact ih existing
    · rw [newNames, if_neg hn]
      refine List.nodup_cons.mpr ⟨?_, ih (existing ++ [n])⟩
      intro hmem
      exact ((newNames_sound rest (existing ++ [n]) n).mp hmem).2
        (List.mem_append_right _ (List.mem_singleton_self n))

theorem newNames_count (names existing : List String) (x : String) :
    (newNames existing names).count x =
      if x ∈ names ∧ x ∉ existing then 1 else 0 := by
  by_cases hx : x ∈ names ∧ x ∉ existing
  · rw [if_pos hx]
    exact List.count_eq_one_of_mem (newNames_nodup names existing)
      ((newNames_sound names existing x).mpr hx)
  · rw [if_neg hx]
    exact List.count_eq_zero.mpr fun hmem =>
      hx ((newNames_sound names existing x).mp hmem)

theorem tagsGo_names : ∀ (names : List String) (db : DB),
    (getOrCreateTagsGo db names).2.tags.map (fun t => t.name) =
      db.tags.map (fun t => t.name) ++
        newNames (db.tags.map (fun t => t.name)) names ∧
    (getOrCreateTagsGo db names).1.2 =
      (newNames (db.tags.map (fun t => t.name)) names).length := by
  intro names
  induction names with
  | nil => intro db; simp [getOrCreateTagsGo, newNames]
  | cons n rest ih =>
    intro db
    cases h : db.tags.find? (fun x => x.name = n) with
    | some t =>
      have hpt := List.find?_some h
      have hmemt := List.mem_of_find?_eq_some h
      have hmem : n ∈ db.tags.map (fun t => t.name) :=
        List.mem_map.mpr ⟨t, hmemt, of_decide_eq_true hpt⟩
      rw [getOrCreateTagsGo_found db n rest t h]
      obtain ⟨ih1, ih2⟩ := ih db
      rw [newNames, if_pos hmem]
      exact ⟨ih1, ih2⟩
    | none =>
      have hnmem : n ∉ db.tags.map (fun t => t.name) := by
        intro hmem
        obtain ⟨t, ht1, ht2⟩ := List.mem_map.mp hmem
        exact absurd (decide_eq_true ht2) (by
          simpa using List.find?_eq_none.mp h t ht1)
      rw [getOrCreateTagsGo_new db n rest h]
      obtain ⟨ih1, ih2⟩ := ih { db with tags := db.tags ++ [⟨db.nextId, n⟩],
                                        nextId := db.nextId + 1 }
      constructor
      · rw [ih1, newNames, if_neg hnmem]
        simp [List.map_append, List.append_assoc]
      · rw [ih2, newNames, if_neg hnmem]
        simp [List.map_append]

/-- C4: a category or tag name matching an existing row by exact name is
reused (no new row, `was_created = false`, table unchanged); a name with no
match is created exactly once — even when repeated in the record — and the
count of created rows is returned (this is what the import adds to
`categories_created` / `tags_created`). -/
theorem get_or_create_reuse (db : DB) :
    (∀ (name : String) (c : Category),
      db.categories.find? (fun x => x.name = name) = some c →
      get_or_create_category db name = ((c.id, false), db)) ∧
    (∀ name : String,
      db.categories.find? (fun x => x.name = name) = none →
      (get_or_create_category db name).2.categories =
        db.categories ++ [⟨db.nextId, name⟩] ∧
      (get_or_create_category db name).1.2 = true) ∧
    (∀ names : List String,
      (get_or_create_tags db names).2.tags.map (fun t => t.name) =
        db.tags.map (fun t => t.name) ++
          newNames (db.tags.map (fun t => t.name)) names ∧
      (get_or_create_tags db names).1.2 =
        (newNames (db.tags.map (fun t => t.name)) names).length ∧
      (∀ x, x ∈ newNames (db.tags.map (fun t => t.name)) names ↔
        (x ∈ names ∧ x ∉ db.tags.map (fun t => t.name))) ∧
      (∀ x, ((get_or_create_tags db names).2.tags.map (fun t => t.name)).count x =
        (db.tags.map (fun t => t.name)).count x +
          (if x ∈ names ∧ x ∉ db.tags.map (fun t => t.name) then 1 else 0))) ∧
    (∀ (res : ImportResult) (br : BackupRecipe) (uid : Nat),
      (create_recipe_from_backup db res br uid).2.1.tags_created =
        res.tags_created +
          (get_or_create_tags (resolveCategory db res br.category_name).2.2
            br.tag_names).1.2) := by
  refine ⟨?_, ?_, ?_, ?_⟩
  · intro name c h
    exact get_or_create_category_found db name c h
  · intro name h
    rw [get_or_create_category_new db name h]
    exact ⟨rfl, rfl⟩
  · intro names
    obtain ⟨h1, h2⟩ := tagsGo_names names db
    rw [get_or_create_tags_eq_go]
    refine ⟨h1, h2, newNames_sound names _, ?_⟩
    intro x
    rw [h1, List.count_append, newNames_count]
  · intro res br uid
    obtain ⟨cid, res1, db1, hrc⟩ : ∃ a b c,
        resolveCategory db res br.category_name = (a, b, c) := ⟨_, _, _, rfl⟩
    have hp := resolveCategory_proj db res br.category_name
    rw [hrc] at hp
    dsimp only at hp
    obtain ⟨ids, tc, db2, htg⟩ : ∃ a b c,
        get_or_create_tags db1 br.tag_names = ((a, b), c) := ⟨_, _, _, rfl⟩
    rw [hrc]
    dsimp only
    rw [htg]
    dsimp only
    cases hcx : parseComplexity br.complexity with
    | error e =>
      simp only [create_recipe_from_backup, hrc, htg, hcx]
      rw [hp.2.2.2.2.2.2.2.2]
    | ok cx =>
      simp only [create_recipe_from_backup, hrc, htg, hcx]
      rw [hp.2.2.2.2.2.2.2.2]

/-- Witness for C4 at a concrete database: the category "Soup" is reused
as-is, "Salad" is created with the created flag, and the repeated fresh tag
name "new" ends up in the table exactly once. -/
theorem get_or_create_reuse_witness :
    get_or_create_category
        { categories := [⟨0, "Soup"⟩], tags := [⟨1, "easy"⟩], nextId := 2 }
        "Soup" =
      ((0, false),
        { categories := [⟨0, "Soup"⟩], tags := [⟨1, "easy"⟩], nextId := 2 }) ∧
    (get_or_create_category
        { categories := [⟨0, "Soup"⟩], tags := [⟨1, "easy"⟩], nextId := 2 }
        "Salad").1.2 = true ∧
    ((get_or_create_tags
        { categories := [⟨0, "Soup"⟩], tags := [⟨1, "easy"⟩], nextId := 2 }
        ["easy", "new", "new"]).2.tags.map (fun t => t.name)).count "new" =
      (([⟨1, "easy"⟩] : List Tag).map (fun t => t.name)).count "new" + 1 := by
  have h := get_or_create_reuse
    { categories := [⟨0, "Soup"⟩], tags := [⟨1, "easy"⟩], nextId := 2 }
  refine ⟨h.1 "Soup" ⟨0, "Soup"⟩ (by decide), (h.2.1 "Salad" (by decide)).2, ?_⟩
  have hc := (h.2.2.1 ["easy", "new", "new"]).2.2.2 "new"
  rw [hc, if_pos (by decide)]

end BackupService

namespace AIRetry

/-- `str(error).lower()` restricted to the ASCII lowering Python performs on
the characters relevant to the keyword tests. -/
def lowerStr (s : String) : String := ⟨s.data.map Char.toLower⟩

/-- Whether `sub` occurs as a contiguous run in the character list. -/
def containsSubAux (sub : List Char) : List Char → Bool
  | [] => sub.isEmpty
  | c :: rest => sub.isPrefixOf (c :: rest) || containsSubAux sub rest

/-- Python's `sub in s` substring test. -/
def containsSub (s sub : String) : Bool := containsSubAux sub.data s.data

/-- The keyword lists of `is_transient_error` (`app/services/ai/base.py`
lines 34-60). -/
def transientTerms : List String :=
  ["connection", "timeout", "network", "temporary", "unavailable"]

/-- The HTTP 5xx code substrings tested by `is_transient_error`. -/
def serverCodes : List String := ["500", "502", "503", "504"]

/-- `is_transient_error`: keyword test on the lowercased error message. -/
def is_transient_error (msg : String) : Bool :=
  let e := lowerStr msg
  transientTerms.any (fun t => containsSub e t) ||
    serverCodes.any (fun c => containsSub e c) ||
    (containsSub e "429" || containsSub e "rate lim\x69t")

/-- The attempt loop of `with_retry` (`app/services/ai/base.py` lines
63-104). `op k` is the outcome of the `k`-th call of `operation` (a value,
or the message of the raised exception — the `AIExtractionError` branch and
the generic branch of the Python code behave identically). Returns the
final outcome, the number of attempts made, and the list of sleep durations
taken between consecutive attempts. -/
def withRetryGo (op : Nat → Except String α) (delay : ℚ) :
    Nat → Nat → Except String α × Nat × List ℚ
  | att, remaining =>
    match op att, remaining with
    | .ok v, _ => (.ok v, att + 1, [])
    | .error e, 0 => (.error e, att + 1, [])
    | .error e, r + 1 =>
      if is_transient_error e then
        let (res, n, ds) := withRetryGo op delay (att + 1) r
        (res, n, delay :: ds)
      else (.error e, att + 1, [])

/-- `with_retry(operation, max_retries, delay_seconds)`: attempts are
indexed `0 .. max_retries`; the final `raise AIExtractionError` of the
Python function is unreachable (each loop iteration returns or raises). -/
def with_retry (op : Nat → Except String α) (max_retries : Nat) (delay_seconds : ℚ) :
    Except String α × Nat × List ℚ :=
  withRetryGo op delay_seconds 0 max_retries

end AIRetry

namespace AIRetry

theorem withRetryGo_ok {op : Nat → Except String α} {att : Nat} {v : α}
    (delay : ℚ) (remaining : Nat) (h : op att = .ok v) :
    withRetryGo op delay att remaining = (.ok v, att + 1, []) := by
  rw [withRetryGo.eq_def]
  simp only [h]

theorem withRetryGo_err_zero {op : Nat → Except String α} {att : Nat} {e : String}
    (delay : ℚ) (h : op att = .error e) :
    withRetryGo op delay att 0 = (.error e, att + 1, []) := by
  rw [withRetryGo.eq_def]
  simp only [h]

theorem withRetryGo_err_trans {op : Nat → Except String α} {att : Nat} {e : String}
    (delay : ℚ) (r : Nat) (h : op att = .error e) (ht : is_transient_error e = true) :
    withRetryGo op delay att (r + 1) =
      ((withRetryGo op delay (att + 1) r).1, (withRetryGo op delay (att + 1) r).2.1,
        delay :: (withRetryGo op delay (att + 1) r).2.2) := by
  rw [withRetryGo.eq_def]
  simp only [h, ht, if_true]

theorem withRetryGo_err_stop {op : Nat → Except String α} {att : Nat} {e : String}
    (delay : ℚ) (r : Nat) (h : op att = .error e) (ht : is_transient_error e = false) :
    withRetryGo op delay att (r + 1) = (.error e, att + 1, []) := by
  rw [withRetryGo.eq_def]
  simp [h, ht]

/-- Invariant of the retry loop: attempt count bounds, fixed sleeps, every
retried attempt transiently failed, and the result is the outcome of the
final attempt. -/
theorem withRetryGo_spec (op : Nat → Except String α) (delay : ℚ) :
    ∀ remaining att,
      att < (withRetryGo op delay att remaining).2.1 ∧
      (withRetryGo op delay att remaining).2.1 ≤ att + remaining + 1 ∧
      (withRetryGo op delay att remaining).2.2.length =
        (withRetryGo op delay att remaining).2.1 - 1 - att ∧
      (∀ d ∈ (withRetryGo op delay att remaining).2.2, d = delay) ∧
      (∀ k, att ≤ k → k < (withRetryGo op delay att remaining).2.1 - 1 →
        ∃ e, op k = .error e ∧ is_transient_error e = true) ∧
      (∀ v, op ((withRetryGo op delay att remaining).2.1 - 1) = .ok v →
        (withRetryGo op delay att remaining).1 = .ok v) ∧
      (∀ e, op ((withRetryGo op delay att remaining).2.1 - 1) = .error e →
        (withRetryGo op delay att remaining).1 = .error e ∧
          (is_transient_error e = false ∨
            (withRetryGo op delay att remaining).2.1 = att + remaining + 1)) := by
  intro remaining
  induction remaining with
  | zero =>
    intro att
    cases hop : op att with
    | ok v =>
      rw [withRetryGo_ok delay 0 hop]
      dsimp only
      refine ⟨by omega, by omega, by simp, by simp, ?_, ?_, ?_⟩
      · intro k hk hk'
        simp only [Nat.add_sub_cancel] at hk'
        omega
      · intro w hw
        simp only [Nat.add_sub_cancel] at hw
        rw [hop] at hw
        exact congrArg Except.ok (Except.ok.inj hw)
      · intro e he
        simp only [Nat.add_sub_cancel] at he
        rw [hop] at he
        exact absurd he (by simp)
    | error e =>
      rw [withRetryGo_err_zero delay hop]
      dsimp only
      refine ⟨by omega, by omega, by simp, by simp, ?_, ?_, ?_⟩
      · intro k hk hk'
        simp only [Nat.add_sub_cancel] at hk'
        omega
      · intro w hw
        simp only [Nat.add_sub_cancel] at hw
        rw [hop] at hw
        exact absurd hw (by simp)
      · intro e' he
        simp only [Nat.add_sub_cancel] at he
        rw [hop] at he
        cases he
        exact ⟨rfl, Or.inr rfl⟩
  | succ r ih =>
    intro att
    cases hop : op att with
    | ok v =>
      rw [withRetryGo_ok delay (r + 1) hop]
      dsimp only
      refine ⟨by omega, by omega, by simp, by simp, ?_, ?_, ?_⟩
      · intro k hk hk'
        simp only [Nat.add_sub_cancel] at hk'
        omega
      · intro w hw
        simp only [Nat.add_sub_cancel] at hw
        rw [hop] at hw
        exact congrArg Except.ok (Except.ok.inj hw)
      · intro e he
        simp only [Nat.add_sub_cancel] at he
        rw [hop] at he
        exact absurd he (by simp)
    | error e =>
      by_cases htr : is_transient_error e
      · rw [withRetryGo_err_trans delay r hop htr]
        dsimp only
        obtain ⟨h1, h2, h3, h4, h5, h6, h7⟩ := ih (att + 1)
        refine ⟨by omega, by omega, ?_, ?_, ?_, h6, ?_⟩
        · rw [List.length_cons, h3]
          omega
        · intro d hd
          rcases List.mem_cons.mp hd with rfl | hd'
          · rfl
          · exact h4 d hd'
        · intro k hk hk'
          rcases Nat.lt_or_ge k (att + 1) with hlt | hge
          · have hke : k = att := by omega
            exact hke ▸ ⟨e, hop, htr⟩
          · exact h5 k hge hk'
        · intro e' he'
          obtain ⟨hres, hor⟩ := h7 e' he'
          refine ⟨hres, ?_⟩
          rcases hor with hf | hn
          · exact Or.inl hf
          · exact Or.inr (by omega)
      · rw [withRetryGo_err_stop delay r hop (Bool.eq_false_iff.mpr htr)]
        dsimp only
        refine ⟨by omega, by omega, by simp, by simp, ?_, ?_, ?_⟩
        · intro k hk hk'
          simp only [Nat.add_sub_cancel] at hk'
          omega
        · intro w hw
          simp only [Nat.add_sub_cancel] at hw
          rw [hop] at hw
          exact absurd hw (by simp)
        · intro e' he
          simp only [Nat.add_sub_cancel] at he
          rw [hop] at he
          cases he
          exact ⟨rfl, Or.inl (Bool.eq_false_iff.mpr htr)⟩

/-- C5: `with_retry` makes at most `max_retries + 1` attempts with a fixed
delay of `delay_seconds` between consecutive attempts; every attempt that
was retried had raised an error that `is_transient_error` classifies as
transient, the result is the outcome of the final attempt, and a
non-transient error on the first attempt is re-raised immediately with no
further attempts. -/
theorem with_retry_spec (op : Nat → Except String α) (max_retries : Nat)
    (delay_seconds : ℚ) (res : Except String α) (n : Nat) (ds : List ℚ)
    (h : with_retry op max_retries delay_seconds = (res, n, ds)) :
    (1 ≤ n ∧ n ≤ max_retries + 1) ∧
    (ds.length = n - 1 ∧ ∀ d ∈ ds, d = delay_seconds) ∧
    (∀ k, k < n - 1 → ∃ e, op k = .error e ∧ is_transient_error e = true) ∧
    (∀ v, op (n - 1) = .ok v → res = .ok v) ∧
    (∀ e, op (n - 1) = .error e →
      res = .error e ∧ (is_transient_error e = false ∨ n = max_retries + 1)) ∧
    (∀ e, op 0 = .error e → is_transient_error e = false →
      res = .error e ∧ n = 1) := by
  have hw : with_retry op max_retries delay_seconds =
      withRetryGo op delay_seconds 0 max_retries := rfl
  rw [hw] at h
  obtain ⟨g1, g2, g3, g4, g5, g6, g7⟩ := withRetryGo_spec op delay_seconds max_retries 0
  rw [h] at g1 g2 g3 g4 g5 g6 g7
  dsimp only at g1 g2 g3 g4 g5 g6 g7
  refine ⟨⟨by omega, by omega⟩, ⟨by simpa using g3, g4⟩,
    fun k hk => g5 k (Nat.zero_le k) hk, g6, ?_, ?_⟩
  · intro e he
    obtain ⟨hres, hor⟩ := g7 e he
    refine ⟨hres, ?_⟩
    rcases hor with hf | hn2
    · exact Or.inl hf
    · exact Or.inr (by omega)
  · intro e he hne
    have hn1 : n = 1 := by
      by_contra hne1
      have hlt : 0 < n - 1 := by omega
      obtain ⟨e', he', htr⟩ := g5 0 (Nat.le_refl 0) hlt
      rw [he] at he'
      cases he'
      rw [htr] at hne
      exact Bool.noConfusion hne
    subst hn1
    exact ⟨(g7 e (by simpa using he)).1, rfl⟩

/-- Witness for C5: a connection error on attempt 0 is retried once and the
second attempt's value is returned with one fixed sleep; a non-transient
error is re-raised immediately. -/
theorem with_retry_spec_witness :
    (([(1 : ℚ)].length = 2 - 1 ∧ ∀ d ∈ [(1 : ℚ)], d = 1) ∧
      (∀ e, (fun k => if k = 0 then (.error "connection reset" : Except String Nat)
          else .ok 7) 0 = .error e → is_transient_error e = false →
        (.ok 7 : Except String Nat) = .error e ∧ 2 = 1)) ∧
    ((.error "invalid api key 401" : Except String Nat) =
        .error "invalid api key 401" ∧ 1 = 1) := by
  constructor
  · have h := with_retry_spec
      (fun k => if k = 0 then (.error "connection reset" : Except String Nat) else .ok 7)
      3 1 (.ok 7) 2 [1] rfl
    exact ⟨h.2.1, h.2.2.2.2.2⟩
  · exact (with_retry_spec (fun _ => (.error "invalid api key 401" : Except String Nat))
      3 1 (.error "invalid api key 401") 1 [] rfl).2.2.2.2.2
      "invalid api key 401" rfl (by decide)

end AIRetry

namespace Auth

/-- `UserRole` enum (`app/models/user.py`). -/
inductive UserRole where
  | admin | standard
deriving DecidableEq

/-- The `.value` of a `UserRole` member. -/
def UserRole.value : UserRole → String
  | .admin => "admin"
  | .standard => "standard"

/-- Modelled from the spec: the `python-jose` `jwt.encode` / `jwt.decode`
pair used by `AuthService` (the library is outside this repository). A
token is its claims together with the secret and algorithm it was signed
with; decoding with the wrong secret or algorithm, or at or after `exp`,
fails (`JWTError`), exactly the "textbook JWT issuance/verification" the
spec describes. -/
structure Token where
  sub : String
  role : Option String
  exp : Nat
  typ : String
  secret : String
  alg : String
deriving DecidableEq

/-- The decoded payload of a token: the claims without the signature data. -/
structure Payload where
  sub : String
  role : Option String
  exp : Nat
  typ : String
deriving DecidableEq

/-- `jwt.decode(token, secret, algorithms=[alg])` evaluated at time `now`
(model of the jose verification: signature, algorithm, expiry). -/
def jwt_decode (t : Token) (secret alg : String) (now : Nat) : Option Payload :=
  if t.secret = secret ∧ t.alg = alg ∧ now < t.exp then
    some ⟨t.sub, t.role, t.exp, t.typ⟩
  else none

/-- `AuthService.create_access_token` (`app/services/auth.py` lines 24-33):
`sub` is `str(user_id)` (user ids are modelled by their string form),
`role` the role's value, `exp` now plus the configured minutes, `type`
`"access"`. -/
def create_access_token (user_id : String) (role : UserRole) (now expire_minutes : Nat)
    (secret alg : String) : Token :=
  ⟨user_id, some role.value, now + expire_minutes * 60, "access", secret, alg⟩

/-- `AuthService.decode_token` (`app/services/auth.py` lines 45-51):
returns the payload, or `None` when verification fails. -/
def decode_token (token : Token) (secret alg : String) (now : Nat) : Option Payload :=
  jwt_decode token secret alg now

/-- A row of the `users` table (`app/models/user.py`). -/
structure User where
  username : String
  email : String
  hashed_password : String
  role : UserRole
deriving DecidableEq

/-- `AuthService.create_user` (`app/services/auth.py` lines 65-79): the
role is `admin` exactly when `db.query(User).count()` is 0; password
hashing (bcrypt) is abstracted by the `hash` parameter. Returns the new
table and the created user. -/
def create_user (db : List User) (username email password : String)
    (hash : String → String) : List User × User :=
  let role := if db.length = 0 then UserRole.admin else UserRole.standard
  let u : User := ⟨username, email, hash password, role⟩
  (db ++ [u], u)

end Auth

namespace Auth

/-- C9: `create_user` assigns the admin role iff the users table is empty at
creation time, and any user created while at least one user exists receives
the standard role. -/
theorem create_user_first_is_admin (db : List User)
    (username email password : String) (hash : String → String) :
    ((create_user db username email password hash).2.role = UserRole.admin ↔ db = []) ∧
    (db ≠ [] → (create_user db username email password hash).2.role = UserRole.standard) := by
  constructor
  · simp only [create_user]
    constructor
    · intro h
      by_contra hne
      rw [if_neg (by simpa [List.length_eq_zero] using hne)] at h
      exact UserRole.noConfusion h
    · intro h
      subst h
      simp
  · intro hne
    simp only [create_user]
    rw [if_neg (by simpa [List.length_eq_zero] using hne)]

/-- Witness for C9 at a nonempty table: the second user is standard. -/
theorem create_user_first_is_admin_witness :
    ([⟨"a", "a@x", "h", UserRole.admin⟩] : List User) ≠ [] ∧
    (create_user [⟨"a", "a@x", "h", UserRole.admin⟩] "b" "b@x" "pw" id).2.role =
      UserRole.standard :=
  ⟨by decide,
   (create_user_first_is_admin [⟨"a", "a@x", "h", UserRole.admin⟩] "b" "b@x" "pw" id).2
     (by decide)⟩

/-- C7: decoding an access token made with the same secret and algorithm,
before its expiry, yields a payload with `sub` the user id's string form,
`role` the role's value and `type` `"access"`; decoding fails (returns
`none`) for a wrong secret, a wrong algorithm, or at/after expiry. -/
theorem access_token_round_trip (user_id : String) (role : UserRole)
    (now expire_minutes : Nat) (secret alg : String) (t : Nat) :
    (t < now + expire_minutes * 60 →
      decode_token (create_access_token user_id role now expire_minutes secret alg)
          secret alg t =
        some ⟨user_id, some role.value, now + expire_minutes * 60, "access"⟩) ∧
    (∀ tok : Token, tok.secret ≠ secret → decode_token tok secret alg t = none) ∧
    (∀ tok : Token, tok.alg ≠ alg → decode_token tok secret alg t = none) ∧
    (∀ tok : Token, tok.exp ≤ t → decode_token tok secret alg t = none) := by
  refine ⟨fun ht => ?_, fun tok hs => ?_, fun tok ha => ?_, fun tok he => ?_⟩
  · simp [decode_token, jwt_decode, create_access_token, ht]
  · simp [decode_token, jwt_decode, hs]
  · simp [decode_token, jwt_decode, ha]
  · simp [decode_token, jwt_decode, Nat.not_lt.mpr he]

/-- Witness for C7 at concrete values: a token decoded one second before
expiry round-trips; tampering with the secret yields `none`. -/
theorem access_token_round_trip_witness :
    (59 : Nat) < 0 + 1 * 60 ∧
    decode_token (create_access_token "uid-1" UserRole.admin 0 1 "s" "HS256")
        "s" "HS256" 59 =
      some ⟨"uid-1", some UserRole.admin.value, 0 + 1 * 60, "access"⟩ ∧
    decode_token ⟨"uid-1", none, 60, "access", "other", "HS256"⟩ "s" "HS256" 0 = none := by
  refine ⟨by decide, ?_, ?_⟩
  · exact (access_token_round_trip "uid-1" UserRole.admin 0 1 "s" "HS256" 59).1 (by decide)
  · exact (access_token_round_trip "uid-1" UserRole.admin 0 1 "s" "HS256" 0).2.1
      ⟨"uid-1", none, 60, "access", "other", "HS256"⟩ (by decide)

end Auth
